import Mathlib

/-!
Verification of the tomoxlending core (`tomoxlending/tomoxlending.go`).

The Go code is shallowly embedded: machine state (the secondary Mongo store,
the per-transaction history cache, the pending-order merge structure) is made
explicit, `big.Int` values become `Int`, `time.Time` becomes `Int`
(`Before` is `<`, `Equal` is `=`, `IsZero` is `= 0`), hashes and addresses
become `Nat`, and fallible store operations are driven by an explicit
`StoreFails` oracle describing which keys fail.
-/

namespace TomoxLending

/-- Order status constants of `lendingstate`.  Go statuses are strings, whose
zero value is the empty string; `LendingStatusEmpty` models that zero value. -/
inductive LStatus where
  | LendingStatusEmpty
  | LendingStatusNew
  | LendingStatusOpen
  | LendingStatusPartialFilled
  | LendingStatusFilled
  | LendingStatusCancelled
  | LendingStatusReject
  deriving DecidableEq, Repr

/-- Order type constants of `lendingstate` (`Limit` / `Market`). -/
inductive LType where
  | Limit
  | Market
  deriving DecidableEq, Repr

/-- The fields of `lendingstate.LendingItem` read or written by
`SyncDataToSDKNode` / `RollbackLendingItems` (value view; the Go `Type` field
is called `Typ` because `Type` is reserved in Lean). -/
structure LendingItem where
  Hash : Nat
  TxHash : Nat
  Status : LStatus
  Typ : LType
  Quantity : Int
  FilledAmount : Int
  CreatedAt : Int
  UpdatedAt : Int
  LendingToken : Nat
  CollateralToken : Nat
  deriving DecidableEq, Repr

/-- The fields of `lendingstate.LendingTrade` used by `SyncDataToSDKNode`. -/
structure LendingTrade where
  Hash : Nat
  TxHash : Nat
  Amount : Int
  MakerOrderHash : Nat
  CreatedAt : Int
  UpdatedAt : Int
  deriving DecidableEq, Repr

/-- `lendingstate.LendingItemHistoryItem`: the snapshot
`{TxHash, FilledAmount, Status, UpdatedAt}`.  `FilledAmount` is an
`Option Int` because the Go field is a `*big.Int` pointer and the zero value
of the struct (used by `RollbackLendingItems` to detect an absent snapshot)
has a nil pointer there. -/
structure LendingItemHistoryItem where
  TxHash : Nat
  FilledAmount : Option Int
  Status : LStatus
  UpdatedAt : Int
  deriving DecidableEq, Repr

/-- The Go zero value `lendingstate.LendingItemHistoryItem{}`. -/
def emptyHistoryItem : LendingItemHistoryItem :=
  ⟨0, none, .LendingStatusEmpty, 0⟩

/-- The secondary (SDK) store: lending items keyed by `Hash` and lending
trades keyed by `Hash`. -/
structure MongoDB where
  items : List LendingItem
  trades : List LendingTrade
  deriving DecidableEq, Repr

/-- Failure oracle for the secondary store: which item/trade hashes make
`PutObject` or `DeleteObject` fail, and whether `CommitLendingBulk` fails. -/
structure StoreFails where
  putItems : List Nat
  putTrades : List Nat
  deleteItems : List Nat
  commit : Bool
  deriving DecidableEq, Repr

/-- A failure oracle under which every store operation succeeds. -/
def noFails : StoreFails := ⟨[], [], [], false⟩

/-- `db.GetObject(hash, &LendingItem{})` on the item collection. -/
def getObject (db : MongoDB) (h : Nat) : Option LendingItem :=
  db.items.find? (fun o => o.Hash == h)

/-- Successful `db.PutObject(o.Hash, o)` on the item collection: replace the
record with this hash, or append it if absent. -/
def dbSetItem (db : MongoDB) (o : LendingItem) : MongoDB :=
  if db.items.any (fun j => j.Hash == o.Hash) then
    { db with items := db.items.map (fun j => if j.Hash == o.Hash then o else j) }
  else
    { db with items := db.items ++ [o] }

/-- Successful `db.DeleteObject(h, &LendingItem{})`. -/
def dbDeleteItem (db : MongoDB) (h : Nat) : MongoDB :=
  { db with items := db.items.filter (fun j => j.Hash ≠ h) }

/-- Successful `db.PutObject(t.Hash, t)` on the trade collection. -/
def dbSetTrade (db : MongoDB) (t : LendingTrade) : MongoDB :=
  if db.trades.any (fun j => j.Hash == t.Hash) then
    { db with trades := db.trades.map (fun j => if j.Hash == t.Hash then t else j) }
  else
    { db with trades := db.trades ++ [t] }

/-- `db.GetLendingItemByTxHash(txhash)`: all item records currently stamped
with this transaction hash. -/
def getLendingItemByTxHash (db : MongoDB) (txhash : Nat) : List LendingItem :=
  db.items.filter (fun o => o.TxHash == txhash)

/-- `db.DeleteLendingTradeByTxHash(txhash)`: drop every trade stamped with
this transaction hash. -/
def deleteLendingTradeByTxHash (db : MongoDB) (txhash : Nat) : MongoDB :=
  { db with trades := db.trades.filter (fun t => t.TxHash ≠ txhash) }

/-- Helper for `dedupKeys`: keep the first occurrence of each key, tracking
the keys already emitted. -/
def dedupKeysAux : List Nat → List Nat → List Nat
  | [], _ => []
  | h :: t, seen => if h ∈ seen then dedupKeysAux t seen else h :: dedupKeysAux t (h :: seen)

/-- First-occurrence deduplication of a hash list (a Mongo `$in` query
returns each matching document once). -/
def dedupKeys (l : List Nat) : List Nat :=
  dedupKeysAux l []

/-- `db.GetListLendingItemByHashes(hashes)`. -/
def getListLendingItemByHashes (db : MongoDB) (hs : List Nat) : List LendingItem :=
  (dedupKeys hs).filterMap (getObject db)

/-- `lendingstate.GetLendingItemHistoryKey(LendingToken, CollateralToken, hash)`.
Modelled from the spec: the history snapshot is keyed by the triple
`(LendingToken, CollateralToken, OrderHash)` (the Go helper lives in the
`lendingstate` package, outside this file). -/
def getLendingItemHistoryKey (lt ct h : Nat) : Nat × Nat × Nat :=
  (lt, ct, h)

/-- One per-transaction bucket of the history cache. -/
abbrev HistBucket := List ((Nat × Nat × Nat) × LendingItemHistoryItem)

/-- The `lendingItemHistory` LRU cache: per-transaction-hash buckets of
pre-update snapshots (capacity eviction is not modelled). -/
structure HistoryCache where
  buckets : List (Nat × HistBucket)
  deriving DecidableEq, Repr

def cacheGet (c : HistoryCache) (tx : Nat) : Option HistBucket :=
  (c.buckets.find? (fun p => p.1 == tx)).map (fun p => p.2)

def cacheSet (c : HistoryCache) (tx : Nat) (b : HistBucket) : HistoryCache :=
  if c.buckets.any (fun p => p.1 == tx) then
    ⟨c.buckets.map (fun p => if p.1 == tx then (tx, b) else p)⟩
  else
    ⟨c.buckets ++ [(tx, b)]⟩

def cacheRemove (c : HistoryCache) (tx : Nat) : HistoryCache :=
  ⟨c.buckets.filter (fun p => p.1 ≠ tx)⟩

def bucketFind (b : HistBucket) (k : Nat × Nat × Nat) : Option LendingItemHistoryItem :=
  (b.find? (fun p => p.1 == k)).map (fun p => p.2)

/-- `Lending.UpdateLendingItemCache` (tomoxlending.go lines 427-441): fetch
the bucket for `txhash` (absent means empty), insert `lastState` under the
order key only if that key has no entry yet, store the bucket back. -/
def updateLendingItemCache (c : HistoryCache) (LendingToken CollateralToken hash txhash : Nat)
    (lastState : LendingItemHistoryItem) : HistoryCache :=
  let b := (cacheGet c txhash).getD []
  let k := getLendingItemHistoryKey LendingToken CollateralToken hash
  let b' := match bucketFind b k with
    | some _ => b
    | none => b ++ [(k, lastState)]
  cacheSet c txhash b'

/-- The snapshot `{TxHash, CloneBigInt(FilledAmount), Status, UpdatedAt}`
taken from an item before mutating it. -/
def histOf (o : LendingItem) : LendingItemHistoryItem :=
  ⟨o.TxHash, some o.FilledAmount, o.Status, o.UpdatedAt⟩

/-- The snapshot of an optional stored record: absent records snapshot to the
zero value (the taker `lastState` starts as `LendingItemHistoryItem{}`). -/
def histOfOpt : Option LendingItem → LendingItemHistoryItem
  | some o => histOf o
  | none => emptyHistoryItem

/-- Result of a `SyncDataToSDKNode` call: the Go error, plus the mutated
secondary store, history cache, and caller-supplied dirty counter. -/
structure SyncResult where
  err : Option String
  db : MongoDB
  cache : HistoryCache
  dirty : Nat
  deriving DecidableEq, Repr

/-- Taker status/fill update per trade (tomoxlending.go lines 284-289):
`FilledAmount.Add(FilledAmount, filledAmount)`; then `PartialFilled` when the
cumulative fill is below `Quantity` and the order is a `Limit` order, else
`Filled`. -/
def takerAfterFill (t : LendingItem) (amount : Int) : LendingItem :=
  let f := t.FilledAmount + amount
  { t with
    FilledAmount := f,
    Status := if f < t.Quantity ∧ t.Typ = .Limit then .LendingStatusPartialFilled
              else .LendingStatusFilled }

/-- Market-order status override after all trades are folded in
(tomoxlending.go lines 292-299). -/
def finalizeMarketTaker (t : LendingItem) : LendingItem :=
  if t.Typ = .Market then
    if t.FilledAmount > 0 then { t with Status := .LendingStatusFilled }
    else { t with Status := .LendingStatusReject }
  else t

def assocGet (l : List (Nat × Int)) (k : Nat) : Option Int :=
  (l.find? (fun p => p.1 == k)).map (fun p => p.2)

def assocSet (l : List (Nat × Int)) (k : Nat) (v : Int) : List (Nat × Int) :=
  if l.any (fun p => p.1 == k) then
    l.map (fun p => if p.1 == k then (k, v) else p)
  else
    l ++ [(k, v)]

/-- State threaded through the trades loop of `SyncDataToSDKNode`: the store,
the in-progress taker record, `makerDirtyFilledAmount` and
`makerDirtyHashes`. -/
structure TradeLoopSt where
  db : MongoDB
  taker : LendingItem
  makerAmt : List (Nat × Int)
  makerHashes : List Nat
  deriving DecidableEq, Repr

/-- A fold that stops at the first step returning an error, as the Go loops
do with their early `return`s. -/
def foldStop (f : σ → α → Option String × σ) : σ → List α → Option String × σ
  | st, [] => (none, st)
  | st, a :: as =>
    match f st a with
    | (some e, st') => (some e, st')
    | (none, st') => foldStop f st' as

/-- One iteration of the trades loop (tomoxlending.go lines 256-290):
backfill the trade timestamps, persist the trade, accumulate the maker dirty
fill amount, and update the taker fill/status. -/
def processTrade (fails : StoreFails) (txMatchTime : Int) (st : TradeLoopSt)
    (tr : LendingTrade) : Option String × TradeLoopSt :=
  let tr1 := if tr.CreatedAt = 0 then { tr with CreatedAt := txMatchTime } else tr
  let tr2 := { tr1 with UpdatedAt := txMatchTime }
  if tr2.Hash ∈ fails.putTrades then
    (some "SDKNode: failed to store lendingTrade", st)
  else
    let makerFilled := ((assocGet st.makerAmt tr.MakerOrderHash).getD 0) + tr.Amount
    (none,
     { db := dbSetTrade st.db tr2,
       taker := takerAfterFill st.taker tr.Amount,
       makerAmt := assocSet st.makerAmt tr.MakerOrderHash makerFilled,
       makerHashes := st.makerHashes ++ [tr.MakerOrderHash] })

/-- Store plus history cache, the state of the maker and dirty-reject
loops. -/
structure DbCacheSt where
  db : MongoDB
  cache : HistoryCache
  deriving DecidableEq, Repr

/-- One iteration of the maker loop (tomoxlending.go lines 310-337): skip
stale makers, snapshot the pre-update state into the history cache
(first-touch-wins), fold in the accumulated fill, recompute the status, stamp
and persist. -/
def processMaker (fails : StoreFails) (txHash : Nat) (txMatchTime : Int)
    (makerAmt : List (Nat × Int)) (st : DbCacheSt) (m : LendingItem) :
    Option String × DbCacheSt :=
  if txMatchTime < m.UpdatedAt then
    (none, st)
  else
    let cache' := updateLendingItemCache st.cache m.LendingToken m.CollateralToken m.Hash txHash (histOf m)
    let f := m.FilledAmount + (assocGet makerAmt m.Hash).getD 0
    let m' := { m with
      TxHash := txHash,
      UpdatedAt := txMatchTime,
      FilledAmount := f,
      Status := if f < m.Quantity then LStatus.LendingStatusPartialFilled
                else LStatus.LendingStatusFilled }
    if m.Hash ∈ fails.putItems then
      (some "SDKNode: failed to put processed makerOrder", { st with cache := cache' })
    else
      (none, ⟨dbSetItem st.db m', cache'⟩)

/-- State of the first rejected-items loop: store, cache, and the mutable
`updatedTakerLendingItem` local. -/
structure RejectLoopSt where
  db : MongoDB
  cache : HistoryCache
  taker : LendingItem
  deriving DecidableEq, Repr

/-- One iteration of the first rejected-items loop (tomoxlending.go lines
345-364): when the rejected order is the taker itself and not stale, snapshot
the current taker state, mark the taker rejected, stamp and persist it. -/
def processRejectTaker (fails : StoreFails) (txHash : Nat) (txMatchTime : Int)
    (st : RejectLoopSt) (r : LendingItem) : Option String × RejectLoopSt :=
  if st.taker.Hash = r.Hash ∧ ¬ txMatchTime < r.UpdatedAt then
    let cache' := updateLendingItemCache st.cache st.taker.LendingToken st.taker.CollateralToken
      st.taker.Hash txHash (histOf st.taker)
    let t' := { st.taker with
      Status := LStatus.LendingStatusReject,
      TxHash := txHash,
      UpdatedAt := txMatchTime }
    if st.taker.Hash ∈ fails.putItems then
      (some "SDKNode: failed to reject takerOrder", { st with cache := cache' })
    else
      (none, ⟨dbSetItem st.db t', cache', t'⟩)
  else
    (none, st)

/-- One iteration of the dirty-rejected loop (tomoxlending.go lines 366-389):
skip stale records, snapshot the pre-update state (first-touch-wins), fold in
any fill accumulated for the same hash as a maker, mark rejected, stamp and
persist. -/
def processRejectDirty (fails : StoreFails) (txHash : Nat) (txMatchTime : Int)
    (makerAmt : List (Nat × Int)) (st : DbCacheSt) (r : LendingItem) :
    Option String × DbCacheSt :=
  if txMatchTime < r.UpdatedAt then
    (none, st)
  else
    let cache' := updateLendingItemCache st.cache r.LendingToken r.CollateralToken r.Hash txHash (histOf r)
    let f := match assocGet makerAmt r.Hash with
      | some a => r.FilledAmount + a
      | none => r.FilledAmount
    let r' := { r with
      FilledAmount := f,
      Status := LStatus.LendingStatusReject,
      TxHash := txHash,
      UpdatedAt := txMatchTime }
    if r.Hash ∈ fails.putItems then
      (some "SDKNode: failed to update rejectedOder to sdkNode", { st with cache := cache' })
    else
      (none, ⟨dbSetItem st.db r', cache'⟩)

/-- The maker-update phase of `SyncDataToSDKNode` (tomoxlending.go lines
308-337): fetch the dirty maker records, then run the maker loop over
them. -/
def syncPhaseMakers (fails : StoreFails) (txHash : Nat) (txMatchTime : Int)
    (makerAmt : List (Nat × Int)) (makerHashes : List Nat) (s : DbCacheSt) :
    Option String × DbCacheSt :=
  foldStop (processMaker fails txHash txMatchTime makerAmt) s
    (getListLendingItemByHashes s.db makerHashes)

/-- The rejected-items phase of `SyncDataToSDKNode` (tomoxlending.go lines
342-390): when there are rejected items, run the taker-reject loop over
them, then fetch fresh copies of all rejected hashes and run the dirty
reject loop. -/
def syncPhaseRejects (fails : StoreFails) (txHash : Nat) (txMatchTime : Int)
    (makerAmt : List (Nat × Int)) (taker2 : LendingItem)
    (rejectedItems : List LendingItem) (s : DbCacheSt) : Option String × DbCacheSt :=
  if rejectedItems.isEmpty then
    (none, s)
  else
    match foldStop (processRejectTaker fails txHash txMatchTime) ⟨s.db, s.cache, taker2⟩ rejectedItems with
    | (some e, rst) => (some e, ⟨rst.db, rst.cache⟩)
    | (none, rst) =>
      foldStop (processRejectDirty fails txHash txMatchTime makerAmt) ⟨rst.db, rst.cache⟩
        (getListLendingItemByHashes rst.db (rejectedItems.map (fun r => r.Hash)))

/-- Everything `SyncDataToSDKNode` does after the staleness gate has passed
and the dirty counter has been incremented (tomoxlending.go lines 250-395). -/
def syncAfterGate (fails : StoreFails) (db : MongoDB) (cache : HistoryCache)
    (updatedTaker : LendingItem) (lastState : LendingItemHistoryItem)
    (txHash : Nat) (txMatchTime : Int) (trades : List LendingTrade)
    (rejectedItems : List LendingItem) (dirty : Nat) : SyncResult :=
  let cache1 := updateLendingItemCache cache updatedTaker.LendingToken updatedTaker.CollateralToken
    updatedTaker.Hash txHash lastState
  let taker1 := { updatedTaker with UpdatedAt := txMatchTime }
  match foldStop (processTrade fails txMatchTime) ⟨db, taker1, [], []⟩ trades with
  | (some e, st) => ⟨some e, st.db, cache1, dirty⟩
  | (none, st) =>
    let taker2 := finalizeMarketTaker st.taker
    if taker2.Hash ∈ fails.putItems then
      ⟨some "SDKNode: failed to put processed takerOrder", st.db, cache1, dirty⟩
    else
      match syncPhaseMakers fails txHash txMatchTime st.makerAmt st.makerHashes
          ⟨dbSetItem st.db taker2, cache1⟩ with
      | (some e, mst) => ⟨some e, mst.db, mst.cache, dirty⟩
      | (none, mst) =>
        match syncPhaseRejects fails txHash txMatchTime st.makerAmt taker2 rejectedItems mst with
        | (some e, fs) => ⟨some e, fs.db, fs.cache, dirty⟩
        | (none, fs) =>
          if fails.commit then
            ⟨some "SDKNode fail to commit bulk update lendingItem/lendingTrades", fs.db, fs.cache, dirty⟩
          else
            ⟨none, fs.db, fs.cache, dirty⟩

/-- The `updatedTakerLendingItem` of `SyncDataToSDKNode` as it stands at the
staleness gate (tomoxlending.go lines 219-243): the stored record when one
exists (else the incoming taker), with `Status` forced to `Cancelled` or
`Open`, `TxHash` stamped, and `CreatedAt` backfilled when zero. -/
def syncUpdatedTaker (db : MongoDB) (takerLendingItem : LendingItem)
    (txHash : Nat) (txMatchTime : Int) : LendingItem :=
  let updated0 := (getObject db takerLendingItem.Hash).getD takerLendingItem
  let updated1 := { updated0 with
    Status := if takerLendingItem.Status = .LendingStatusCancelled then
        LStatus.LendingStatusCancelled
      else LStatus.LendingStatusOpen,
    TxHash := txHash }
  if updated1.CreatedAt = 0 then { updated1 with CreatedAt := txMatchTime } else updated1

/-- The staleness gate of `SyncDataToSDKNode` (tomoxlending.go line 244):
skip when `txMatchTime` is strictly before the stored `UpdatedAt`, or equal
to it while the dirty counter is still zero.  The compared `UpdatedAt` is
that of the stored taker record when one exists, else the incoming taker
item (the preceding `Status`/`TxHash`/`CreatedAt` edits do not touch
`UpdatedAt`). -/
def syncGateSkips (db : MongoDB) (taker : LendingItem) (txMatchTime : Int)
    (dirtyOrderCount : Nat) : Prop :=
  let updated := (getObject db taker.Hash).getD taker
  txMatchTime < updated.UpdatedAt ∨ (txMatchTime = updated.UpdatedAt ∧ dirtyOrderCount = 0)

instance (db : MongoDB) (taker : LendingItem) (t : Int) (c : Nat) :
    Decidable (syncGateSkips db taker t c) := by
  unfold syncGateSkips
  exact inferInstance

/-- `Lending.SyncDataToSDKNode` (tomoxlending.go lines 204-396). -/
def syncDataToSDKNode (fails : StoreFails) (db : MongoDB) (cache : HistoryCache)
    (takerLendingItem : LendingItem) (txHash : Nat) (txMatchTime : Int)
    (trades : List LendingTrade) (rejectedItems : List LendingItem)
    (dirtyOrderCount : Nat) : SyncResult :=
  if syncGateSkips db takerLendingItem txMatchTime dirtyOrderCount then
    ⟨none, db, cache, dirtyOrderCount⟩
  else
    syncAfterGate fails db cache (syncUpdatedTaker db takerLendingItem txHash txMatchTime)
      (histOfOpt (getObject db takerLendingItem.Hash)) txHash txMatchTime trades rejectedItems
      (dirtyOrderCount + 1)

/-- Result of `RollbackLendingItems`: the function returns nothing in Go, so
store failures can only show up in the log. -/
structure RollbackResult where
  db : MongoDB
  cache : HistoryCache
  logs : List String
  deriving DecidableEq, Repr

/-- One iteration of the rollback loop (tomoxlending.go lines 447-474): no
bucket or an empty snapshot means the record was created by the reverted
transaction and is deleted; otherwise `TxHash`, `Status`, `FilledAmount`
and `UpdatedAt` are restored from the snapshot.  Store failures are logged
via `log.Error` and the loop continues. -/
def rollbackStep (fails : StoreFails) (cache : HistoryCache) (txhash : Nat)
    (acc : MongoDB × List String) (item : LendingItem) : MongoDB × List String :=
  match cacheGet cache txhash with
  | none =>
    if item.Hash ∈ fails.deleteItems then
      (acc.1, acc.2 ++ ["SDKNode: failed to remove reorg lendingItem"])
    else
      (dbDeleteItem acc.1 item.Hash, acc.2)
  | some bucket =>
    let hist := (bucketFind bucket
      (getLendingItemHistoryKey item.LendingToken item.CollateralToken item.Hash)).getD emptyHistoryItem
    if hist = emptyHistoryItem then
      if item.Hash ∈ fails.deleteItems then
        (acc.1, acc.2 ++ ["SDKNode: failed to remove reorg lendingItem"])
      else
        (dbDeleteItem acc.1 item.Hash, acc.2)
    else
      let item' := { item with
        TxHash := hist.TxHash,
        Status := hist.Status,
        FilledAmount := hist.FilledAmount.getD 0,
        UpdatedAt := hist.UpdatedAt }
      if item.Hash ∈ fails.putItems then
        (acc.1, acc.2 ++ ["SDKNode: failed to update reorg item"])
      else
        (dbSetItem acc.1 item', acc.2)

/-- `Lending.RollbackLendingItems` (tomoxlending.go lines 443-478): restore
or delete every record currently stamped with `txhash`, delete the trades
stamped with it, and evict the history-cache bucket (the deferred
`Remove`). -/
def rollbackLendingItems (fails : StoreFails) (db : MongoDB) (cache : HistoryCache)
    (txhash : Nat) : RollbackResult :=
  let items := getLendingItemByTxHash db txhash
  let r := items.foldl (rollbackStep fails cache txhash) (db, [])
  ⟨deleteLendingTradeByTxHash r.1 txhash, cacheRemove cache txhash, r.2⟩

/-! ## Order admission loop (`ProcessOrderPending`, tomoxlending.go lines 104-197) -/

/-- The fields of an order transaction consumed by `ProcessOrderPending`
(`types.OrderTransaction`). -/
structure OrderTx where
  nonce : Nat
  V : Int
  quantity : Int
  interest : Int
  userAddress : Nat
  hash : Nat
  status : LStatus
  typ : LType
  orderId : Nat
  deriving DecidableEq, Repr

/-- The decoded `lendingstate.LendingItem` built by the admission loop
(the fields relevant to the claims). -/
structure AdmittedOrder where
  Nonce : Nat
  Quantity : Int
  Interest : Int
  UserAddress : Nat
  Status : LStatus
  Typ : LType
  Hash : Nat
  LendingId : Nat
  SignatureV : Int
  deriving DecidableEq, Repr

/-- `strconv.ParseInt(V.String(), 10, 8)` (tomoxlending.go lines 118-119):
succeeds exactly when the signature V component fits in a signed 8-bit
integer. -/
def parseSignatureV (v : Int) : Option Int :=
  if -128 ≤ v ∧ v ≤ 127 then some v else none

/-- Decoding of the order transaction (tomoxlending.go lines 124-142). -/
def decodeOrder (tx : OrderTx) (v : Int) : AdmittedOrder :=
  { Nonce := tx.nonce,
    Quantity := tx.quantity,
    Interest := tx.interest,
    UserAddress := tx.userAddress,
    Status := tx.status,
    Typ := tx.typ,
    Hash := tx.hash,
    LendingId := tx.orderId,
    SignatureV := v }

/-- Outcome of the opaque `CommitOrder` matching operation: the nonce
classification errors, success with the assigned lending id and the rejected
orders, or any other error. -/
inductive CommitOutcome where
  | nonceTooLow
  | nonceTooHigh
  | ok (lendingId : Nat) (rejects : List AdmittedOrder)
  | otherErr (msg : String)
  deriving DecidableEq, Repr

/-- Modelled from the spec: the nonce-ordered merge structure built by
`types.NewOrderTransactionByNonce` (the Go type lives in `core/types`,
outside this file) — per-account nonce-sorted transaction lists, with
`Peek` always taking the lowest available nonce across all accounts. -/
abbrev MergeState := List (Nat × List OrderTx)

/-- Modelled from the spec: `Peek` of the least-nonce-first merge — the head
transaction with the smallest nonce across all accounts (ties between
accounts broken by account address). -/
def peekMerge (ms : MergeState) : Option (Nat × OrderTx) :=
  ms.foldl
    (fun best p =>
      match p.2 with
      | [] => best
      | t :: _ =>
        match best with
        | none => some (p.1, t)
        | some (a, bt) =>
          if t.nonce < bt.nonce ∨ (t.nonce = bt.nonce ∧ p.1 < a) then some (p.1, t)
          else some (a, bt))
    none

/-- Modelled from the spec: `Shift` — advance the peeked account past its
head transaction. -/
def shiftMerge (ms : MergeState) (addr : Nat) : MergeState :=
  ms.map (fun p => if p.1 = addr then (p.1, p.2.tail) else p)

/-- Modelled from the spec: `Pop` — abandon the peeked account entirely. -/
def popMerge (ms : MergeState) (addr : Nat) : MergeState :=
  ms.filter (fun p => p.1 ≠ addr)

/-- What one iteration of the admission loop leads to: the loop exits, or it
continues with updated canonical state, merge structure and outputs. -/
inductive StepResult (σ : Type) where
  | done (items : List AdmittedOrder) (results : List (Nat × List AdmittedOrder))
  | cont (st : σ) (ms : MergeState) (items : List AdmittedOrder)
      (results : List (Nat × List AdmittedOrder))
  deriving DecidableEq, Repr

/-- One iteration of the `ProcessOrderPending` loop body (tomoxlending.go
lines 109-195), with `CommitOrder` as an opaque oracle over canonical state
`σ`.  Note the `V`-decode failure path: the Go code does `continue` without
`Shift`/`Pop`, so the merge structure is unchanged. -/
def processStep (commit : σ → AdmittedOrder → σ × CommitOutcome) (st : σ)
    (ms : MergeState) (items : List AdmittedOrder)
    (results : List (Nat × List AdmittedOrder)) : StepResult σ :=
  match peekMerge ms with
  | none => .done items results
  | some (addr, tx) =>
    match parseSignatureV tx.V with
    | none => .cont st ms items results
    | some v =>
      let order := decodeOrder tx v
      let originalOrder := order
      match commit st order with
      | (st', .nonceTooLow) => .cont st' (shiftMerge ms addr) items results
      | (st', .nonceTooHigh) => .cont st' (popMerge ms addr) items results
      | (st', .otherErr _) => .cont st' (shiftMerge ms addr) items results
      | (st', .ok lendingId rejects) =>
        .cont st' (shiftMerge ms addr)
          (items ++ [{ originalOrder with LendingId := lendingId }])
          (results ++ [(order.Hash, rejects)])

/-- Fuel-indexed runner of the admission loop; `none` means the fuel ran out
before the loop exited. -/
def processOrderPendingFuel (commit : σ → AdmittedOrder → σ × CommitOutcome) :
    Nat → σ → MergeState → List AdmittedOrder → List (Nat × List AdmittedOrder) →
    Option (List AdmittedOrder × List (Nat × List AdmittedOrder))
  | 0, _, _, _, _ => none
  | fuel + 1, st, ms, items, results =>
    match processStep commit st ms items results with
    | .done i r => some (i, r)
    | .cont st' ms' i r => processOrderPendingFuel commit fuel st' ms' i r

/-- Insertion of an account into an account-sorted merge state. -/
def insertByKey (p : Nat × List OrderTx) : MergeState → MergeState
  | [] => [p]
  | q :: t => if p.1 ≤ q.1 then p :: q :: t else q :: insertByKey p t

/-- Canonical account order used when heapifying the per-account pending
map (Go map iteration order is arbitrary, so the structure is keyed by
account). -/
def sortByKey : MergeState → MergeState
  | [] => []
  | p :: t => insertByKey p (sortByKey t)

/-- `Lending.ProcessOrderPending` (tomoxlending.go lines 104-197) over a
pending map given as an association list of per-account nonce-sorted
transaction lists. -/
def processOrderPending (commit : σ → AdmittedOrder → σ × CommitOutcome) (fuel : Nat)
    (st : σ) (pending : List (Nat × List OrderTx)) :
    Option (List AdmittedOrder × List (Nat × List AdmittedOrder)) :=
  processOrderPendingFuel commit fuel st (sortByKey pending) [] []

/-! ## Liquidation scanner, time-based pass (tomoxlending.go lines 506-518) -/

/-- The lowest-liquidation-time index of one lending book: liquidation time
mapped to the trading ids recorded at that time. -/
structure LendingTimeIndex where
  entries : List (Int × List Nat)
  deriving DecidableEq, Repr

/-- Modelled from the spec: `lendingState.GetLowestLiquidationTime` — the
lowest positive liquidation time present in the index with its trading ids,
`(0, [])` when there is none (the Go helper lives in `lendingstate`, outside
this file). -/
def getLowestLiquidationTime (idx : LendingTimeIndex) : Int × List Nat :=
  idx.entries.foldl
    (fun acc e =>
      if e.2.isEmpty then acc
      else if acc.1 = 0 ∨ (0 < e.1 ∧ e.1 < acc.1) then e
      else acc)
    (0, [])

/-- Modelled from the spec: `lendingState.RemoveLiquidationData` — remove one
trading id from the entry at the given liquidation time (the Go helper lives
in `lendingstate`, outside this file). -/
def removeLiquidationData (idx : LendingTimeIndex) (time : Int) (id : Nat) : LendingTimeIndex :=
  ⟨(idx.entries.map (fun e => if e.1 = time then (e.1, e.2.filter (fun i => i ≠ id)) else e)).filter
    (fun e => ¬ e.2.isEmpty)⟩

/-- The inner `for lowestTime.Sign() > 0 && lowestTime.Cmp(time) < 0` loop of
the time-based pass (tomoxlending.go lines 510-517), fuel-indexed.  Exactly
as in the source, `lowestTime` and `tradingIds` are NOT re-fetched inside the
loop: the guard keeps testing the values fetched before the loop. -/
def liquidationTimeLoopAux (blockTime : Int) :
    Nat → LendingTimeIndex → Int → List Nat → Option LendingTimeIndex
  | 0, _, _, _ => none
  | fuel + 1, st, lowestTime, tradingIds =>
    if 0 < lowestTime ∧ lowestTime < blockTime then
      liquidationTimeLoopAux blockTime fuel
        (tradingIds.foldl (fun s i => removeLiquidationData s lowestTime i) st)
        lowestTime tradingIds
    else
      some st

/-- The time-based pass of `ProcessLiquidationData` for one lending book
(tomoxlending.go lines 508-518): fetch the lowest liquidation time once,
then run the removal loop. -/
def processLiquidationTimePass (lendingState : LendingTimeIndex) (blockTime : Int)
    (fuel : Nat) : Option LendingTimeIndex :=
  let p := getLowestLiquidationTime lendingState
  liquidationTimeLoopAux blockTime fuel lendingState p.1 p.2

/-! ## Aliasing of the `originalOrder` snapshot (tomoxlending.go lines 149-151)

`big.Int` fields are pointers in Go; to reason about aliasing the
arbitrary-precision values live in an explicit heap and the order fields hold
references into it. -/

/-- A heap of `big.Int` backing values; references are indices. -/
abbrev BigHeap := List Int

def heapRead (h : BigHeap) (r : Nat) : Int := h.getD r 0

def heapWrite (h : BigHeap) (r : Nat) (v : Int) : BigHeap := h.set r v

/-- `lendingstate.CloneBigInt`: allocate a fresh cell holding a copy of the
referenced value, returning the new heap and the fresh reference. -/
def cloneBigInt (h : BigHeap) (r : Nat) : BigHeap × Nat :=
  (h ++ [heapRead h r], h.length)

/-- The reference view of the decoded order: its three `*big.Int` fields
(`Nonce`, `Quantity`, `Interest` — tomoxlending.go lines 125-127) as heap
references, plus the `LendingId`. -/
structure LendingItemRefs where
  NonceRef : Nat
  QuantityRef : Nat
  InterestRef : Nat
  LendingId : Nat
  deriving DecidableEq, Repr

/-- The snapshot taken before commit (tomoxlending.go lines 149-151):
`*originalOrder = *order` copies every field including the pointers, then
only `Quantity` is re-pointed at a `CloneBigInt` copy. -/
def snapshotOriginalOrder (h : BigHeap) (order : LendingItemRefs) :
    BigHeap × LendingItemRefs :=
  let c := cloneBigInt h order.QuantityRef
  (c.1, { order with QuantityRef := c.2 })

/-! ## Liquidation-time pass: non-termination (claim C3) -/

/-- Once the guard of the time-based removal loop holds, it holds forever:
the loop never re-fetches `lowestTime`, so no amount of fuel makes it
exit. -/
theorem liquidationTimeLoopAux_stuck (blockTime lowestTime : Int) (ids : List Nat)
    (h1 : 0 < lowestTime) (h2 : lowestTime < blockTime) :
    ∀ (fuel : Nat) (st : LendingTimeIndex),
      liquidationTimeLoopAux blockTime fuel st lowestTime ids = none := by
  intro fuel
  induction fuel with
  | zero => intro st; rfl
  | succ n ih =>
    intro st
    show liquidationTimeLoopAux blockTime (n + 1) st lowestTime ids = none
    rw [liquidationTimeLoopAux, if_pos (And.intro h1 h2)]
    exact ih _

/-- C3: the claim says `ProcessLiquidationData` always terminates and that
the time-based pass clears every entry strictly below the block time.  In
the source the time-based loop (unlike the price-based one) never re-fetches
`GetLowestLiquidationTime` inside the loop body, so with a lending book
holding one liquidation-time entry at time 5, trading id 1, and block time
10, the guard `0 < 5 && 5 < 10` keeps testing the stale fetched values and
the pass never terminates: for every fuel bound the fuel-indexed run is cut
off. -/
theorem claim_C3_time_pass_diverges (fuel : Nat) :
    processLiquidationTimePass ⟨[(5, [1])]⟩ 10 fuel = none := by
  have h : processLiquidationTimePass ⟨[(5, [1])]⟩ 10 fuel
      = liquidationTimeLoopAux 10 fuel ⟨[(5, [1])]⟩ 5 [1] := rfl
  rw [h]
  exact liquidationTimeLoopAux_stuck 10 5 [1] (by decide) (by decide) fuel _

/-! ## Admission loop: non-termination on a bad signature V (claim C5) -/

/-- When the peeked transaction's signature `V` does not parse as an 8-bit
integer, the loop body `continue`s without `Shift` or `Pop`, so the run
re-peeks the same transaction forever. -/
theorem processOrderPendingFuel_stuck {σ : Type}
    (commit : σ → AdmittedOrder → σ × CommitOutcome) (ms : MergeState)
    (addr : Nat) (tx : OrderTx) (hp : peekMerge ms = some (addr, tx))
    (hv : parseSignatureV tx.V = none) :
    ∀ (fuel : Nat) (st : σ) (items : List AdmittedOrder)
      (results : List (Nat × List AdmittedOrder)),
      processOrderPendingFuel commit fuel st ms items results = none := by
  intro fuel
  induction fuel with
  | zero => intro st items results; rfl
  | succ n ih =>
    intro st items results
    show processOrderPendingFuel commit (n + 1) st ms items results = none
    rw [processOrderPendingFuel]
    have hstep : processStep commit st ms items results = .cont st ms items results := by
      rw [processStep, hp]
      simp only [hv]
    rw [hstep]
    exact ih st items results

/-- A commit oracle over `Nat` canonical state that accepts every order. -/
def commitAlwaysOk : Nat → AdmittedOrder → Nat × CommitOutcome :=
  fun s _ => (s + 1, .ok 42 [])

/-- A pending order transaction whose signature `V` component (300) does not
fit in a signed 8-bit integer, so `strconv.ParseInt(V.String(), 10, 8)`
fails. -/
def badVTx : OrderTx :=
  ⟨0, 300, 10, 1, 1, 9, .LendingStatusNew, .Limit, 0⟩

/-- C5: the claim says the `ProcessOrderPending` loop terminates because
every iteration either shifts or pops, including when decoding the
signature V component fails.  In the source the V-decode failure path does
`continue` without calling `Shift` or `Pop`, so `Peek` returns the same
transaction forever: with a single account holding one transaction whose `V`
is 300, the run is cut off at every fuel bound. -/
theorem claim_C5_v_decode_diverges (fuel : Nat) :
    processOrderPending commitAlwaysOk fuel 0 [(1, [badVTx])] = none := by
  have hp : peekMerge (sortByKey [(1, [badVTx])]) = some (1, badVTx) := rfl
  have hv : parseSignatureV badVTx.V = none := by decide
  exact processOrderPendingFuel_stuck commitAlwaysOk _ 1 badVTx hp hv fuel 0 [] []

/-! ## `originalOrder` snapshot aliasing (claim C8) -/

theorem list_getD_append_length (l : List Int) (v : Int) :
    (l ++ [v]).getD l.length 0 = v := by
  induction l with
  | nil => rfl
  | cons a t ih =>
    simp only [List.cons_append, List.length_cons, List.getD_cons_succ]
    exact ih

theorem list_getD_set_of_ne (l : List Int) (i j : Nat) (v : Int) (h : i ≠ j) :
    (l.set i v).getD j 0 = l.getD j 0 := by
  induction l generalizing i j with
  | nil => rfl
  | cons a t ih =>
    cases i with
    | zero =>
      cases j with
      | zero => exact absurd rfl h
      | succ j => rfl
    | succ i =>
      cases j with
      | zero => rfl
      | succ j =>
        have h' : i ≠ j := fun he => h (by rw [he])
        simpa using ih i j h'

/-- The concrete order used for the snapshot counterexample: its `Quantity`,
`Interest` and `Nonce` backing values sit at heap cells 0, 1 and 2. -/
def c8Order : LendingItemRefs := ⟨2, 0, 1, 0⟩

/-- The heap for the counterexample: cell 0 holds Quantity 100, cell 1 holds
Interest 7, cell 2 holds Nonce 5. -/
def c8Heap : BigHeap := [100, 7, 5]

/-- C8 counterexample: the claim says every arbitrary-precision field of the
`originalOrder` snapshot (`Quantity`, `Interest`, `Nonce`) is deep-copied.
In the source only `Quantity` is re-pointed at a `CloneBigInt` copy
(tomoxlending.go line 151); `*originalOrder = *order` leaves `Interest` (and
`Nonce`) sharing the committed order's backing cell, so a commit-side write
of 99 through the order's `Interest` reference changes the value the
snapshot reads from 7 to 99. -/
theorem claim_C8_counterexample :
    heapRead (snapshotOriginalOrder c8Heap c8Order).1
        (snapshotOriginalOrder c8Heap c8Order).2.InterestRef = 7 ∧
    (snapshotOriginalOrder c8Heap c8Order).2.InterestRef = c8Order.InterestRef ∧
    heapRead (heapWrite (snapshotOriginalOrder c8Heap c8Order).1 c8Order.InterestRef 99)
        (snapshotOriginalOrder c8Heap c8Order).2.InterestRef = 99 ∧
    (7 : Int) ≠ 99 := by
  decide

/-- C8 as amended: only `Quantity` is deep-copied — the snapshot's
`Quantity` reads the pre-commit value even after the commit writes through
the committed order's `Quantity` reference, while the snapshot's `Interest`
and `Nonce` remain aliased to the committed order's cells. -/
theorem claim_C8_amended (h : BigHeap) (o : LendingItemRefs)
    (hq : o.QuantityRef < h.length) (v : Int) :
    heapRead (heapWrite (snapshotOriginalOrder h o).1 o.QuantityRef v)
        (snapshotOriginalOrder h o).2.QuantityRef = heapRead h o.QuantityRef ∧
    (snapshotOriginalOrder h o).2.InterestRef = o.InterestRef ∧
    (snapshotOriginalOrder h o).2.NonceRef = o.NonceRef := by
  refine ⟨?_, rfl, rfl⟩
  show ((h ++ [heapRead h o.QuantityRef]).set o.QuantityRef v).getD h.length 0
    = heapRead h o.QuantityRef
  rw [list_getD_set_of_ne _ _ _ _ (Nat.ne_of_lt hq)]
  exact list_getD_append_length h _

/-- Witness for the amended C8 at the concrete heap and order. -/
theorem claim_C8_amended_witness :
    c8Order.QuantityRef < c8Heap.length ∧
    (heapRead (heapWrite (snapshotOriginalOrder c8Heap c8Order).1 c8Order.QuantityRef 55)
        (snapshotOriginalOrder c8Heap c8Order).2.QuantityRef = heapRead c8Heap c8Order.QuantityRef ∧
     (snapshotOriginalOrder c8Heap c8Order).2.InterestRef = c8Order.InterestRef ∧
     (snapshotOriginalOrder c8Heap c8Order).2.NonceRef = c8Order.NonceRef) :=
  ⟨by decide, claim_C8_amended c8Heap c8Order (by decide) 55⟩

/-! ## Taker status recomputation (claim C7) -/

theorem takerAfterFill_foldl_quantity (amounts : List Int) :
    ∀ t : LendingItem, (amounts.foldl takerAfterFill t).Quantity = t.Quantity
      ∧ (amounts.foldl takerAfterFill t).Typ = t.Typ := by
  induction amounts with
  | nil => intro t; exact ⟨rfl, rfl⟩
  | cons a as ih =>
    intro t
    simp only [List.foldl_cons]
    exact ih (takerAfterFill t a)

theorem finalizeMarketTaker_fields (t : LendingItem) :
    (finalizeMarketTaker t).FilledAmount = t.FilledAmount
      ∧ (finalizeMarketTaker t).Quantity = t.Quantity
      ∧ (finalizeMarketTaker t).Typ = t.Typ := by
  unfold finalizeMarketTaker
  split
  · split <;> exact ⟨rfl, rfl, rfl⟩
  · exact ⟨rfl, rfl, rfl⟩

/-- C7: the status recomputation of `SyncDataToSDKNode` — folding the trade
amounts through the per-trade update (tomoxlending.go lines 284-289) and
then the market override (lines 292-299) — yields, when at least one trade
was processed: for a Limit order `Filled` iff the cumulative
`FilledAmount ≥ Quantity` (with `PartialFilled` whenever
`0 < FilledAmount < Quantity`, in fact whenever `FilledAmount < Quantity`);
for a Market order `Filled` iff `FilledAmount > 0` and `Rejected`
otherwise. -/
theorem claim_C7_status_recomputation (t : LendingItem) (amounts : List Int)
    (hne : amounts ≠ []) :
    (t.Typ = .Limit →
      ((finalizeMarketTaker (amounts.foldl takerAfterFill t)).Status = .LendingStatusFilled
          ↔ t.Quantity ≤ (finalizeMarketTaker (amounts.foldl takerAfterFill t)).FilledAmount)
        ∧ (0 < (finalizeMarketTaker (amounts.foldl takerAfterFill t)).FilledAmount →
            (finalizeMarketTaker (amounts.foldl takerAfterFill t)).FilledAmount < t.Quantity →
            (finalizeMarketTaker (amounts.foldl takerAfterFill t)).Status
              = .LendingStatusPartialFilled))
    ∧ (t.Typ = .Market →
      ((finalizeMarketTaker (amounts.foldl takerAfterFill t)).Status = .LendingStatusFilled
          ↔ 0 < (finalizeMarketTaker (amounts.foldl takerAfterFill t)).FilledAmount)
        ∧ (¬ 0 < (finalizeMarketTaker (amounts.foldl takerAfterFill t)).FilledAmount →
            (finalizeMarketTaker (amounts.foldl takerAfterFill t)).Status
              = .LendingStatusReject)) := by
  rcases List.eq_nil_or_concat amounts with hnil | ⟨as, a, hcat⟩
  · exact absurd hnil hne
  subst hcat
  simp only [List.concat_eq_append, List.foldl_append, List.foldl_cons, List.foldl_nil]
  set w := as.foldl takerAfterFill t with hw
  have hwq : w.Quantity = t.Quantity := (takerAfterFill_foldl_quantity as t).1
  have hwt : w.Typ = t.Typ := (takerAfterFill_foldl_quantity as t).2
  set u := takerAfterFill w a with hu
  have huf : u.FilledAmount = w.FilledAmount + a := rfl
  have huq : u.Quantity = t.Quantity := by rw [hu]; exact hwq
  have hut : u.Typ = t.Typ := by rw [hu]; exact hwt
  have hus : u.Status = if w.FilledAmount + a < w.Quantity ∧ w.Typ = LType.Limit
      then LStatus.LendingStatusPartialFilled else LStatus.LendingStatusFilled := rfl
  obtain ⟨hff, hfq, hft⟩ := finalizeMarketTaker_fields u
  constructor
  · intro hlim
    have hmkt : ¬ u.Typ = LType.Market := by rw [hut, hlim]; intro hx; cases hx
    have hfin : finalizeMarketTaker u = u := by rw [finalizeMarketTaker, if_neg hmkt]
    rw [hfin]
    constructor
    · rw [hus]
      by_cases hlt : w.FilledAmount + a < w.Quantity
      · rw [if_pos ⟨hlt, by rw [hwt, hlim]⟩]
        constructor
        · intro hx; cases hx
        · intro hle
          exfalso
          rw [huf] at hle
          rw [hwq] at hlt
          exact absurd (lt_of_lt_of_le hlt hle) (lt_irrefl _)
      · rw [if_neg (fun hx => hlt hx.1)]
        constructor
        · intro _
          rw [huf]
          rw [hwq] at hlt
          exact le_of_not_lt hlt
        · intro _; rfl
    · intro _ hfa
      rw [hus, if_pos]
      constructor
      · rw [← huf, hwq]; exact hfa
      · rw [hwt, hlim]
  · intro hm
    have hmkt : u.Typ = LType.Market := by rw [hut, hm]
    constructor
    · rw [finalizeMarketTaker, if_pos hmkt]
      by_cases hpos : u.FilledAmount > 0
      · rw [if_pos hpos]
        exact ⟨fun _ => hpos, fun _ => rfl⟩
      · rw [if_neg hpos]
        exact ⟨(fun hx => nomatch hx), fun hp => absurd hp hpos⟩
    · intro hnp
      rw [hff] at hnp
      rw [finalizeMarketTaker, if_pos hmkt, if_neg hnp]

/-- A Limit taker order with `Quantity` 10 and no prior fill. -/
def c7Taker : LendingItem :=
  ⟨1, 0, .LendingStatusOpen, .Limit, 10, 0, 0, 0, 11, 12⟩

/-- Witness for C7 at a Limit order with fills 3 and 4. -/
theorem claim_C7_witness :
    ([3, 4] : List Int) ≠ [] ∧
    ((c7Taker.Typ = .Limit →
      ((finalizeMarketTaker (([3, 4] : List Int).foldl takerAfterFill c7Taker)).Status
            = .LendingStatusFilled
          ↔ c7Taker.Quantity
            ≤ (finalizeMarketTaker (([3, 4] : List Int).foldl takerAfterFill c7Taker)).FilledAmount)
        ∧ (0 < (finalizeMarketTaker (([3, 4] : List Int).foldl takerAfterFill c7Taker)).FilledAmount →
            (finalizeMarketTaker (([3, 4] : List Int).foldl takerAfterFill c7Taker)).FilledAmount
              < c7Taker.Quantity →
            (finalizeMarketTaker (([3, 4] : List Int).foldl takerAfterFill c7Taker)).Status
              = .LendingStatusPartialFilled))
    ∧ (c7Taker.Typ = .Market →
      ((finalizeMarketTaker (([3, 4] : List Int).foldl takerAfterFill c7Taker)).Status
            = .LendingStatusFilled
          ↔ 0 < (finalizeMarketTaker (([3, 4] : List Int).foldl takerAfterFill c7Taker)).FilledAmount)
        ∧ (¬ 0 < (finalizeMarketTaker (([3, 4] : List Int).foldl takerAfterFill c7Taker)).FilledAmount →
            (finalizeMarketTaker (([3, 4] : List Int).foldl takerAfterFill c7Taker)).Status
              = .LendingStatusReject))) :=
  ⟨by decide, claim_C7_status_recomputation c7Taker [3, 4] (by decide)⟩

/-! ## The dirty counter (claim C10) -/

/-- After the gate, the dirty counter is never touched again: every exit of
`syncAfterGate` returns the `dirty` value it was given. -/
theorem syncAfterGate_dirty (fails : StoreFails) (db : MongoDB) (cache : HistoryCache)
    (u : LendingItem) (ls : LendingItemHistoryItem) (txHash : Nat) (txMatchTime : Int)
    (trades : List LendingTrade) (rejectedItems : List LendingItem) (d : Nat) :
    (syncAfterGate fails db cache u ls txHash txMatchTime trades rejectedItems d).dirty = d := by
  unfold syncAfterGate
  repeat' first
    | rfl
    | split
    | dsimp only

/-- C10: `SyncDataToSDKNode` increments the caller-supplied dirty counter by
exactly one iff the staleness gate passes; on the stale-skip path it returns
success with the counter and both stores untouched; once incremented the
counter keeps its value on every later exit, including store errors. -/
theorem claim_C10_dirty_counter (fails : StoreFails) (db : MongoDB) (cache : HistoryCache)
    (taker : LendingItem) (txHash : Nat) (txMatchTime : Int) (trades : List LendingTrade)
    (rejectedItems : List LendingItem) (cnt : Nat) :
    (syncDataToSDKNode fails db cache taker txHash txMatchTime trades rejectedItems cnt).dirty
      = (if syncGateSkips db taker txMatchTime cnt then cnt else cnt + 1) ∧
    (if syncGateSkips db taker txMatchTime cnt then
      syncDataToSDKNode fails db cache taker txHash txMatchTime trades rejectedItems cnt
        = ⟨none, db, cache, cnt⟩
    else True) := by
  by_cases hs : syncGateSkips db taker txMatchTime cnt
  · rw [syncDataToSDKNode, if_pos hs, if_pos hs, if_pos hs]
    exact ⟨rfl, rfl⟩
  · rw [syncDataToSDKNode, if_neg hs, if_neg hs, if_neg hs]
    exact ⟨syncAfterGate_dirty _ _ _ _ _ _ _ _ _ _, trivial⟩

/-! ## Basic store lemmas -/

theorem beq_hash_false_of_ne {a b : Nat} (h : ¬ a = b) : ¬ (a == b) = true := by
  simp only [beq_iff_eq]
  exact h

theorem find?_cons_pos {α : Type} (p : α → Bool) (a : α) (l : List α) (h : p a = true) :
    (a :: l).find? p = some a :=
  List.find?_cons_of_pos l h

theorem find?_cons_neg {α : Type} (p : α → Bool) (a : α) (l : List α) (h : ¬ p a = true) :
    (a :: l).find? p = l.find? p :=
  List.find?_cons_of_neg l h

theorem find?_map_replace_of_ne (l : List LendingItem) (o : LendingItem) (h : Nat)
    (hne : h ≠ o.Hash) :
    (l.map (fun j => if j.Hash == o.Hash then o else j)).find? (fun j => j.Hash == h)
      = l.find? (fun j => j.Hash == h) := by
  have hoh : ¬ (o.Hash == h) = true := beq_hash_false_of_ne (fun he => hne he.symm)
  induction l with
  | nil => rfl
  | cons a t ih =>
    rw [List.map_cons]
    by_cases hao : a.Hash = o.Hash
    · rw [if_pos (by simp only [beq_iff_eq]; exact hao)]
      have hah : ¬ (a.Hash == h) = true := by
        rw [hao]
        exact hoh
      rw [find?_cons_neg (fun j => j.Hash == h) o _ hoh,
        find?_cons_neg (fun j => j.Hash == h) a t hah]
      exact ih
    · rw [if_neg (by simp only [beq_iff_eq]; exact hao)]
      by_cases hah : a.Hash = h
      · rw [find?_cons_pos (fun j => j.Hash == h) a _ (by simp only [beq_iff_eq]; exact hah),
          find?_cons_pos (fun j => j.Hash == h) a t (by simp only [beq_iff_eq]; exact hah)]
      · rw [find?_cons_neg (fun j => j.Hash == h) a _ (beq_hash_false_of_ne hah),
          find?_cons_neg (fun j => j.Hash == h) a t (beq_hash_false_of_ne hah)]
        exact ih

theorem find?_map_replace_self (l : List LendingItem) (o : LendingItem)
    (hany : l.any (fun j => j.Hash == o.Hash) = true) :
    (l.map (fun j => if j.Hash == o.Hash then o else j)).find? (fun j => j.Hash == o.Hash)
      = some o := by
  induction l with
  | nil => cases hany
  | cons a t ih =>
    rw [List.map_cons]
    by_cases hao : a.Hash = o.Hash
    · rw [if_pos (by simp only [beq_iff_eq]; exact hao)]
      rw [find?_cons_pos (fun j => j.Hash == o.Hash) o _ (by simp only [beq_iff_eq])]
    · rw [if_neg (by simp only [beq_iff_eq]; exact hao)]
      rw [find?_cons_neg (fun j => j.Hash == o.Hash) a _ (beq_hash_false_of_ne hao)]
      rw [List.any_cons] at hany
      have ht : t.any (fun j => j.Hash == o.Hash) = true := by
        rcases Bool.or_eq_true_iff.mp hany with hx | hx
        · exact absurd (by simpa using hx) hao
        · exact hx
      exact ih ht

theorem find?_append_single_of_ne (l : List LendingItem) (o : LendingItem) (h : Nat)
    (hne : h ≠ o.Hash) :
    (l ++ [o]).find? (fun j => j.Hash == h) = l.find? (fun j => j.Hash == h) := by
  have hoh : ¬ (o.Hash == h) = true := beq_hash_false_of_ne (fun he => hne he.symm)
  induction l with
  | nil =>
    rw [List.nil_append, find?_cons_neg (fun j => j.Hash == h) o [] hoh]
  | cons a t ih =>
    rw [List.cons_append]
    by_cases hah : a.Hash = h
    · rw [find?_cons_pos (fun j => j.Hash == h) a _ (by simp only [beq_iff_eq]; exact hah),
        find?_cons_pos (fun j => j.Hash == h) a t (by simp only [beq_iff_eq]; exact hah)]
    · rw [find?_cons_neg (fun j => j.Hash == h) a _ (beq_hash_false_of_ne hah),
        find?_cons_neg (fun j => j.Hash == h) a t (beq_hash_false_of_ne hah)]
      exact ih

theorem find?_append_single_self (l : List LendingItem) (o : LendingItem)
    (hany : l.any (fun j => j.Hash == o.Hash) = false) :
    (l ++ [o]).find? (fun j => j.Hash == o.Hash) = some o := by
  induction l with
  | nil =>
    rw [List.nil_append,
      find?_cons_pos (fun j => j.Hash == o.Hash) o [] (by simp only [beq_iff_eq])]
  | cons a t ih =>
    rw [List.any_cons] at hany
    rcases Bool.or_eq_false_iff.mp hany with ⟨h1, h2⟩
    rw [List.cons_append,
      find?_cons_neg (fun j => j.Hash == o.Hash) a _
        (by
          intro hx
          have hx' : (a.Hash == o.Hash) = true := hx
          rw [h1] at hx'
          exact Bool.false_ne_true hx')]
    exact ih h2

/-- `getObject` after a successful `PutObject`: the written record is found
under its hash, everything else is untouched. -/
theorem getObject_dbSetItem (db : MongoDB) (o : LendingItem) (h : Nat) :
    getObject (dbSetItem db o) h = if h = o.Hash then some o else getObject db h := by
  unfold getObject dbSetItem
  by_cases hany : db.items.any (fun j => j.Hash == o.Hash) = true
  · rw [if_pos hany]
    by_cases hh : h = o.Hash
    · rw [if_pos hh, hh]
      exact find?_map_replace_self db.items o hany
    · rw [if_neg hh]
      exact find?_map_replace_of_ne db.items o h hh
  · rw [if_neg hany]
    by_cases hh : h = o.Hash
    · rw [if_pos hh, hh]
      exact find?_append_single_self db.items o (Bool.not_eq_true _ ▸ hany)
    · rw [if_neg hh]
      exact find?_append_single_of_ne db.items o h hh

/-- Writing a trade record does not affect the item collection. -/
theorem getObject_dbSetTrade (db : MongoDB) (t : LendingTrade) (h : Nat) :
    getObject (dbSetTrade db t) h = getObject db h := by
  unfold getObject dbSetTrade
  split <;> rfl

/-- `getObject` after a successful `DeleteObject`. -/
theorem getObject_dbDeleteItem (db : MongoDB) (h0 h : Nat) :
    getObject (dbDeleteItem db h0) h = if h = h0 then none else getObject db h := by
  unfold getObject dbDeleteItem
  show (db.items.filter (fun j => j.Hash ≠ h0)).find? (fun o => o.Hash == h)
    = if h = h0 then none else db.items.find? (fun o => o.Hash == h)
  induction db.items with
  | nil => by_cases hh : h = h0 <;> simp [hh]
  | cons a t ih =>
    by_cases hah : a.Hash = h0
    · rw [List.filter_cons_of_neg (by simp [hah])]
      by_cases hh : h = h0
      · rw [if_pos hh]
        rw [if_pos hh] at ih
        exact ih
      · rw [if_neg hh]
        rw [if_neg hh] at ih
        rw [find?_cons_neg (fun o => o.Hash == h) a t
          (beq_hash_false_of_ne (fun he => hh (he.symm.trans hah)))]
        exact ih
    · rw [List.filter_cons_of_pos (by simp [hah])]
      by_cases hfound : a.Hash = h
      · have hh : ¬ h = h0 := fun he => hah (hfound.trans he)
        rw [if_neg hh]
        rw [find?_cons_pos (fun o => o.Hash == h) a _ (by simp only [beq_iff_eq]; exact hfound),
          find?_cons_pos (fun o => o.Hash == h) a t (by simp only [beq_iff_eq]; exact hfound)]
      · rw [find?_cons_neg (fun o => o.Hash == h) a _ (beq_hash_false_of_ne hfound),
          find?_cons_neg (fun o => o.Hash == h) a t (beq_hash_false_of_ne hfound)]
        exact ih

/-- A found record carries the hash it was looked up under. -/
theorem getObject_hash (db : MongoDB) (h : Nat) (o : LendingItem)
    (ho : getObject db h = some o) : o.Hash = h := by
  unfold getObject at ho
  have := List.find?_some ho
  simpa using this

/-- A found record is a member of the item list. -/
theorem getObject_mem (db : MongoDB) (h : Nat) (o : LendingItem)
    (ho : getObject db h = some o) : o ∈ db.items :=
  List.mem_of_find?_eq_some ho

/-- Early-stopping fold preserves any property preserved by successful
steps. -/
theorem foldStop_preserve {σ α : Type} (f : σ → α → Option String × σ) (P : σ → Prop)
    (hf : ∀ st a, P st → (f st a).1 = none → P (f st a).2) :
    ∀ (l : List α) (st : σ), P st → (foldStop f st l).1 = none → P (foldStop f st l).2 := by
  intro l
  induction l with
  | nil => intro st hP _; exact hP
  | cons a as ih =>
    intro st hP hok
    rw [foldStop] at hok ⊢
    rcases hfa : f st a with ⟨e, st'⟩
    rw [hfa] at hok
    cases e with
    | some e0 => exact Option.noConfusion hok
    | none =>
      have hP' : P st' := by
        have h2 := hf st a hP (by rw [hfa])
        rw [hfa] at h2
        exact h2
      exact ih st' hP' hok

/-! ## Replay of a synchronized tuple (claim C1) -/

/-- An early-stopping fold preserves any function of the state that every
step (successful or not) preserves. -/
theorem foldStop_invariant_fun {σ α β : Type} (f : σ → α → Option String × σ) (F : σ → β)
    (hf : ∀ st a, F (f st a).2 = F st) :
    ∀ (l : List α) (st : σ), F (foldStop f st l).2 = F st := by
  intro l
  induction l with
  | nil => intro st; rfl
  | cons a as ih =>
    intro st
    rw [foldStop]
    rcases hfa : f st a with ⟨e, st'⟩
    have hFa : F st' = F st := by
      have := hf st a
      rw [hfa] at this
      exact this
    cases e with
    | some e0 => exact hFa
    | none => exact (ih st').trans hFa

/-- One trade iteration never changes the item collection nor the taker
fields other than `FilledAmount` and `Status`. -/
theorem processTrade_frame (fails : StoreFails) (time : Int) (st : TradeLoopSt)
    (tr : LendingTrade) :
    (processTrade fails time st tr).2.db.items = st.db.items
      ∧ (processTrade fails time st tr).2.taker.Hash = st.taker.Hash
      ∧ (processTrade fails time st tr).2.taker.TxHash = st.taker.TxHash
      ∧ (processTrade fails time st tr).2.taker.UpdatedAt = st.taker.UpdatedAt
      ∧ (processTrade fails time st tr).2.taker.CreatedAt = st.taker.CreatedAt
      ∧ (processTrade fails time st tr).2.taker.Quantity = st.taker.Quantity
      ∧ (processTrade fails time st tr).2.taker.Typ = st.taker.Typ
      ∧ (processTrade fails time st tr).2.taker.LendingToken = st.taker.LendingToken
      ∧ (processTrade fails time st tr).2.taker.CollateralToken = st.taker.CollateralToken := by
  unfold processTrade
  dsimp only
  split
  · split
    · exact ⟨rfl, rfl, rfl, rfl, rfl, rfl, rfl, rfl, rfl⟩
    · refine ⟨?_, rfl, rfl, rfl, rfl, rfl, rfl, rfl, rfl⟩
      show (dbSetTrade st.db _).items = st.db.items
      unfold dbSetTrade
      split <;> rfl
  · split
    · exact ⟨rfl, rfl, rfl, rfl, rfl, rfl, rfl, rfl, rfl⟩
    · refine ⟨?_, rfl, rfl, rfl, rfl, rfl, rfl, rfl, rfl⟩
      show (dbSetTrade st.db _).items = st.db.items
      unfold dbSetTrade
      split <;> rfl

/-- The non-`FilledAmount`/`Status` fields of the taker are also unchanged
by the market finalization. -/
theorem finalizeMarketTaker_frame (t : LendingItem) :
    (finalizeMarketTaker t).Hash = t.Hash
      ∧ (finalizeMarketTaker t).TxHash = t.TxHash
      ∧ (finalizeMarketTaker t).UpdatedAt = t.UpdatedAt
      ∧ (finalizeMarketTaker t).CreatedAt = t.CreatedAt
      ∧ (finalizeMarketTaker t).LendingToken = t.LendingToken
      ∧ (finalizeMarketTaker t).CollateralToken = t.CollateralToken := by
  unfold finalizeMarketTaker
  split
  · split <;> exact ⟨rfl, rfl, rfl, rfl, rfl, rfl⟩
  · exact ⟨rfl, rfl, rfl, rfl, rfl, rfl⟩

/-- The taker record is stored under `h` with `UpdatedAt = time`. -/
def TakerStamped (db : MongoDB) (h : Nat) (time : Int) : Prop :=
  ∃ o, getObject db h = some o ∧ o.UpdatedAt = time

theorem TakerStamped_dbSetItem_self (d : MongoDB) (o : LendingItem) (hh : Nat) (time : Int)
    (hm : hh = o.Hash) (hu : o.UpdatedAt = time) : TakerStamped (dbSetItem d o) hh time := by
  refine ⟨o, ?_, hu⟩
  rw [getObject_dbSetItem, if_pos hm]

theorem TakerStamped_dbSetItem_other (d : MongoDB) (o : LendingItem) (hh : Nat) (time : Int)
    (hm : ¬ hh = o.Hash) (hP : TakerStamped d hh time) :
    TakerStamped (dbSetItem d o) hh time := by
  obtain ⟨w, hw, hu⟩ := hP
  refine ⟨w, ?_, hu⟩
  rw [getObject_dbSetItem, if_neg hm]
  exact hw

theorem processMaker_stamped (fails : StoreFails) (txh : Nat) (time : Int)
    (amt : List (Nat × Int)) (hh : Nat) (st : DbCacheSt) (m : LendingItem)
    (hP : TakerStamped st.db hh time)
    (hok : (processMaker fails txh time amt st m).1 = none) :
    TakerStamped (processMaker fails txh time amt st m).2.db hh time := by
  unfold processMaker at hok ⊢
  by_cases h1 : time < m.UpdatedAt
  · rw [if_pos h1]
    exact hP
  · rw [if_neg h1] at hok ⊢
    dsimp only at hok ⊢
    by_cases h2 : m.Hash ∈ fails.putItems
    · rw [if_pos h2] at hok
      exact absurd hok (by simp)
    · rw [if_neg h2]
      show TakerStamped (dbSetItem st.db _) hh time
      by_cases hm : hh = m.Hash
      · exact TakerStamped_dbSetItem_self st.db _ hh time hm rfl
      · exact TakerStamped_dbSetItem_other st.db _ hh time hm hP

theorem processRejectTaker_stamped (fails : StoreFails) (txh : Nat) (time : Int)
    (hh : Nat) (st : RejectLoopSt) (r : LendingItem)
    (hP : TakerStamped st.db hh time)
    (hok : (processRejectTaker fails txh time st r).1 = none) :
    TakerStamped (processRejectTaker fails txh time st r).2.db hh time := by
  unfold processRejectTaker at hok ⊢
  by_cases h1 : st.taker.Hash = r.Hash ∧ ¬ time < r.UpdatedAt
  · rw [if_pos h1] at hok ⊢
    dsimp only at hok ⊢
    by_cases h2 : st.taker.Hash ∈ fails.putItems
    · rw [if_pos h2] at hok
      exact absurd hok (by simp)
    · rw [if_neg h2]
      show TakerStamped (dbSetItem st.db _) hh time
      by_cases hm : hh = st.taker.Hash
      · exact TakerStamped_dbSetItem_self st.db _ hh time hm rfl
      · exact TakerStamped_dbSetItem_other st.db _ hh time hm hP
  · rw [if_neg h1]
    exact hP

theorem processRejectDirty_stamped (fails : StoreFails) (txh : Nat) (time : Int)
    (amt : List (Nat × Int)) (hh : Nat) (st : DbCacheSt) (r : LendingItem)
    (hP : TakerStamped st.db hh time)
    (hok : (processRejectDirty fails txh time amt st r).1 = none) :
    TakerStamped (processRejectDirty fails txh time amt st r).2.db hh time := by
  unfold processRejectDirty at hok ⊢
  by_cases h1 : time < r.UpdatedAt
  · rw [if_pos h1]
    exact hP
  · rw [if_neg h1] at hok ⊢
    dsimp only at hok ⊢
    by_cases h2 : r.Hash ∈ fails.putItems
    · rw [if_pos h2] at hok
      exact absurd hok (by simp)
    · rw [if_neg h2]
      show TakerStamped (dbSetItem st.db _) hh time
      by_cases hm : hh = r.Hash
      · exact TakerStamped_dbSetItem_self st.db _ hh time hm rfl
      · exact TakerStamped_dbSetItem_other st.db _ hh time hm hP

theorem syncPhaseMakers_stamped (fails : StoreFails) (txh : Nat) (time : Int)
    (amt : List (Nat × Int)) (mh : List Nat) (hh : Nat) (s : DbCacheSt)
    (hP : TakerStamped s.db hh time)
    (hok : (syncPhaseMakers fails txh time amt mh s).1 = none) :
    TakerStamped (syncPhaseMakers fails txh time amt mh s).2.db hh time := by
  unfold syncPhaseMakers at hok ⊢
  exact foldStop_preserve _ (fun st => TakerStamped st.db hh time)
    (fun st a h1 h2 => processMaker_stamped fails txh time amt hh st a h1 h2) _ s hP hok

theorem syncPhaseRejects_stamped (fails : StoreFails) (txh : Nat) (time : Int)
    (amt : List (Nat × Int)) (taker2 : LendingItem) (rejects : List LendingItem)
    (hh : Nat) (s : DbCacheSt) (hP : TakerStamped s.db hh time)
    (hok : (syncPhaseRejects fails txh time amt taker2 rejects s).1 = none) :
    TakerStamped (syncPhaseRejects fails txh time amt taker2 rejects s).2.db hh time := by
  unfold syncPhaseRejects at hok ⊢
  by_cases hemp : rejects.isEmpty = true
  · rw [if_pos hemp]
    exact hP
  · rw [if_neg hemp] at hok ⊢
    rcases h1 : foldStop (processRejectTaker fails txh time) ⟨s.db, s.cache, taker2⟩ rejects
      with ⟨e1, rst⟩
    rw [h1] at hok
    cases e1 with
    | some e0 => exact absurd hok (by simp)
    | none =>
      have hrst : TakerStamped rst.db hh time := by
        have := foldStop_preserve (processRejectTaker fails txh time)
          (fun st => TakerStamped st.db hh time)
          (fun st a ha hb => processRejectTaker_stamped fails txh time hh st a ha hb)
          rejects ⟨s.db, s.cache, taker2⟩ hP (by rw [h1])
        rw [h1] at this
        exact this
      exact foldStop_preserve (processRejectDirty fails txh time amt)
        (fun st => TakerStamped st.db hh time)
        (fun st a ha hb => processRejectDirty_stamped fails txh time amt hh st a ha hb)
        _ ⟨rst.db, rst.cache⟩ hrst hok

/-- After a successful post-gate synchronization, the taker record is stored
with `UpdatedAt` equal to the match time. -/
theorem syncAfterGate_ok_taker_stamped (fails : StoreFails) (db : MongoDB)
    (cache : HistoryCache) (u : LendingItem) (ls : LendingItemHistoryItem)
    (txh : Nat) (time : Int) (trades : List LendingTrade)
    (rejects : List LendingItem) (d : Nat)
    (hok : (syncAfterGate fails db cache u ls txh time trades rejects d).err = none) :
    TakerStamped (syncAfterGate fails db cache u ls txh time trades rejects d).db u.Hash time := by
  unfold syncAfterGate at hok ⊢
  dsimp only at hok ⊢
  rcases h1 : foldStop (processTrade fails time) ⟨db, { u with UpdatedAt := time }, [], []⟩ trades
    with ⟨e1, st1⟩
  rw [h1] at hok
  cases e1 with
  | some e0 => exact absurd hok (by simp)
  | none =>
    dsimp only at hok ⊢
    have hsk : st1.taker.Hash = u.Hash ∧ st1.taker.UpdatedAt = time := by
      have hH := foldStop_invariant_fun (processTrade fails time) (fun s => s.taker.Hash)
        (fun st a => (processTrade_frame fails time st a).2.1) trades
        ⟨db, { u with UpdatedAt := time }, [], []⟩
      have hU := foldStop_invariant_fun (processTrade fails time) (fun s => s.taker.UpdatedAt)
        (fun st a => (processTrade_frame fails time st a).2.2.2.1) trades
        ⟨db, { u with UpdatedAt := time }, [], []⟩
      rw [h1] at hH hU
      exact ⟨hH, hU⟩
    have ht2h : (finalizeMarketTaker st1.taker).Hash = u.Hash :=
      (finalizeMarketTaker_frame st1.taker).1.trans hsk.1
    have ht2u : (finalizeMarketTaker st1.taker).UpdatedAt = time :=
      (finalizeMarketTaker_frame st1.taker).2.2.1.trans hsk.2
    by_cases hput : (finalizeMarketTaker st1.taker).Hash ∈ fails.putItems
    · rw [if_pos hput] at hok
      exact absurd hok (by simp)
    · rw [if_neg hput] at hok ⊢
      have hbase : TakerStamped (dbSetItem st1.db (finalizeMarketTaker st1.taker)) u.Hash time := by
        refine ⟨finalizeMarketTaker st1.taker, ?_, ht2u⟩
        rw [getObject_dbSetItem, if_pos ht2h.symm]
      rcases h2 : syncPhaseMakers fails txh time st1.makerAmt st1.makerHashes
          ⟨dbSetItem st1.db (finalizeMarketTaker st1.taker), updateLendingItemCache cache
            u.LendingToken u.CollateralToken u.Hash txh ls⟩ with ⟨e2, mst⟩
      rw [h2] at hok
      cases e2 with
      | some e0 => exact absurd hok (by simp)
      | none =>
        dsimp only at hok ⊢
        have hmst : TakerStamped mst.db u.Hash time := by
          have := syncPhaseMakers_stamped fails txh time st1.makerAmt st1.makerHashes u.Hash
            ⟨dbSetItem st1.db (finalizeMarketTaker st1.taker), updateLendingItemCache cache
              u.LendingToken u.CollateralToken u.Hash txh ls⟩ hbase (by rw [h2])
          rw [h2] at this
          exact this
        rcases h3 : syncPhaseRejects fails txh time st1.makerAmt (finalizeMarketTaker st1.taker)
            rejects mst with ⟨e3, fs⟩
        rw [h3] at hok
        cases e3 with
        | some e0 => exact absurd hok (by simp)
        | none =>
          dsimp only at hok ⊢
          have hfs : TakerStamped fs.db u.Hash time := by
            have := syncPhaseRejects_stamped fails txh time st1.makerAmt
              (finalizeMarketTaker st1.taker) rejects u.Hash mst hmst (by rw [h3])
            rw [h3] at this
            exact this
          by_cases hc : fails.commit = true
          · rw [if_pos hc] at hok
            exact absurd hok (by simp)
          · rw [if_neg hc]
            exact hfs

/-- `syncUpdatedTaker` keeps the taker hash. -/
theorem syncUpdatedTaker_hash (db : MongoDB) (taker : LendingItem) (txh : Nat) (time : Int) :
    (syncUpdatedTaker db taker txh time).Hash = taker.Hash := by
  unfold syncUpdatedTaker
  rcases hg : getObject db taker.Hash with _ | o
  · dsimp only [Option.getD]
    split <;> rfl
  · dsimp only [Option.getD]
    have ho := getObject_hash db taker.Hash o hg
    split <;> exact ho

/-- The taker, trade, and stores of the concrete C1 replay scenario. -/
def c1Taker : LendingItem :=
  ⟨1, 0, .LendingStatusNew, .Limit, 10, 0, 0, 0, 11, 12⟩

def c1Trade : LendingTrade := ⟨7, 5, 3, 2, 0, 0⟩

def c1Run1 : SyncResult :=
  syncDataToSDKNode noFails ⟨[], []⟩ ⟨[]⟩ c1Taker 5 100 [c1Trade] [] 0

/-- C1 counterexample: the claim says replaying the identical tuple without
resetting the dirty counter is a no-op.  On the code it is the opposite: the
gate skips only when the time is equal AND the counter is still zero
(tomoxlending.go line 244), so after the first call (which leaves the
counter at 1) the replay passes the gate and folds the same trade into
`FilledAmount` a second time, mutating the store again. -/
theorem claim_C1_counterexample :
    c1Run1.err = none ∧ c1Run1.dirty = 1 ∧
    (syncDataToSDKNode noFails c1Run1.db c1Run1.cache c1Taker 5 100 [c1Trade] [] c1Run1.dirty).err
      = none ∧
    (syncDataToSDKNode noFails c1Run1.db c1Run1.cache c1Taker 5 100 [c1Trade] [] c1Run1.dirty).db
      ≠ c1Run1.db := by
  decide

/-- C1 as amended: replaying the identical
`(taker, txHash, txMatchTime, trades, rejects)` tuple is a no-op when the
dirty counter IS reset to zero between the calls: a successful first call
that passed the gate leaves the taker stored with `UpdatedAt = txMatchTime`,
so the second call hits the equal-time, zero-counter branch of the gate and
returns success with no effect on the store, the cache, or the counter. -/
theorem claim_C1_idempotent_after_reset (fails : StoreFails) (db : MongoDB)
    (cache : HistoryCache) (taker : LendingItem) (txHash : Nat) (txMatchTime : Int)
    (trades : List LendingTrade) (rejects : List LendingItem) (cnt : Nat)
    (hok : (syncDataToSDKNode fails db cache taker txHash txMatchTime trades rejects cnt).err = none)
    (hinc : (syncDataToSDKNode fails db cache taker txHash txMatchTime trades rejects cnt).dirty
      = cnt + 1) :
    syncDataToSDKNode fails
        (syncDataToSDKNode fails db cache taker txHash txMatchTime trades rejects cnt).db
        (syncDataToSDKNode fails db cache taker txHash txMatchTime trades rejects cnt).cache
        taker txHash txMatchTime trades rejects 0
      = ⟨none, (syncDataToSDKNode fails db cache taker txHash txMatchTime trades rejects cnt).db,
          (syncDataToSDKNode fails db cache taker txHash txMatchTime trades rejects cnt).cache,
          0⟩ := by
  by_cases hs : syncGateSkips db taker txMatchTime cnt
  · exfalso
    rw [syncDataToSDKNode, if_pos hs] at hinc
    exact absurd hinc (Nat.ne_of_lt (Nat.lt_succ_self cnt))
  · have hr : syncDataToSDKNode fails db cache taker txHash txMatchTime trades rejects cnt
        = syncAfterGate fails db cache (syncUpdatedTaker db taker txHash txMatchTime)
          (histOfOpt (getObject db taker.Hash)) txHash txMatchTime trades rejects (cnt + 1) := by
      rw [syncDataToSDKNode, if_neg hs]
    rw [hr] at hok ⊢
    obtain ⟨o, ho, hupd⟩ := syncAfterGate_ok_taker_stamped fails db cache
      (syncUpdatedTaker db taker txHash txMatchTime) (histOfOpt (getObject db taker.Hash))
      txHash txMatchTime trades rejects (cnt + 1) hok
    rw [syncUpdatedTaker_hash] at ho
    have hs2 : syncGateSkips
        (syncAfterGate fails db cache (syncUpdatedTaker db taker txHash txMatchTime)
          (histOfOpt (getObject db taker.Hash)) txHash txMatchTime trades rejects (cnt + 1)).db
        taker txMatchTime 0 := by
      unfold syncGateSkips
      rw [ho]
      right
      exact ⟨hupd.symm, rfl⟩
    rw [syncDataToSDKNode, if_pos hs2]

/-- Witness for the amended C1 at the concrete replay scenario. -/
theorem claim_C1_idempotent_after_reset_witness :
    c1Run1.err = none ∧ c1Run1.dirty = 0 + 1 ∧
    syncDataToSDKNode noFails c1Run1.db c1Run1.cache c1Taker 5 100 [c1Trade] [] 0
      = ⟨none, c1Run1.db, c1Run1.cache, 0⟩ :=
  ⟨by decide, by decide,
    claim_C1_idempotent_after_reset noFails ⟨[], []⟩ ⟨[]⟩ c1Taker 5 100 [c1Trade] [] 0
      (by decide) (by decide)⟩

/-! ## Admission loop commit classification (claim C6) -/

/-- Lookup of an account's remaining transactions in the merge structure. -/
def lookupMerge (ms : MergeState) (a : Nat) : Option (List OrderTx) :=
  (ms.find? (fun p => p.1 == a)).map (fun p => p.2)

theorem lookupMerge_shift_self (ms : MergeState) (addr : Nat) :
    lookupMerge (shiftMerge ms addr) addr = (lookupMerge ms addr).map List.tail := by
  induction ms with
  | nil => rfl
  | cons p t ih =>
    unfold shiftMerge lookupMerge at ih ⊢
    rw [List.map_cons]
    by_cases hp : p.1 = addr
    · rw [if_pos hp]
      rw [find?_cons_pos (fun q => q.1 == addr) (p.1, p.2.tail) _
          (by simp only [beq_iff_eq]; exact hp),
        find?_cons_pos (fun q => q.1 == addr) p t (by simp only [beq_iff_eq]; exact hp)]
      rfl
    · rw [if_neg hp]
      rw [find?_cons_neg (fun q => q.1 == addr) p _ (beq_hash_false_of_ne hp),
        find?_cons_neg (fun q => q.1 == addr) p t (beq_hash_false_of_ne hp)]
      exact ih

theorem lookupMerge_shift_other (ms : MergeState) (addr b : Nat) (hne : b ≠ addr) :
    lookupMerge (shiftMerge ms addr) b = lookupMerge ms b := by
  induction ms with
  | nil => rfl
  | cons p t ih =>
    unfold shiftMerge lookupMerge at ih ⊢
    rw [List.map_cons]
    by_cases hp : p.1 = addr
    · rw [if_pos hp]
      have hb : ¬ (p.1 == b) = true := beq_hash_false_of_ne (fun he => hne (he.symm.trans hp))
      rw [find?_cons_neg (fun q => q.1 == b) (p.1, p.2.tail) _ hb,
        find?_cons_neg (fun q => q.1 == b) p t hb]
      exact ih
    · rw [if_neg hp]
      by_cases hpb : p.1 = b
      · rw [find?_cons_pos (fun q => q.1 == b) p _ (by simp only [beq_iff_eq]; exact hpb),
          find?_cons_pos (fun q => q.1 == b) p t (by simp only [beq_iff_eq]; exact hpb)]
      · rw [find?_cons_neg (fun q => q.1 == b) p _ (beq_hash_false_of_ne hpb),
          find?_cons_neg (fun q => q.1 == b) p t (beq_hash_false_of_ne hpb)]
        exact ih

theorem lookupMerge_pop_self (ms : MergeState) (addr : Nat) :
    lookupMerge (popMerge ms addr) addr = none := by
  induction ms with
  | nil => rfl
  | cons p t ih =>
    unfold popMerge lookupMerge at ih ⊢
    by_cases hp : p.1 = addr
    · rw [List.filter_cons_of_neg (by simp [hp])]
      exact ih
    · rw [List.filter_cons_of_pos (by simp [hp])]
      rw [find?_cons_neg (fun q => q.1 == addr) p _ (beq_hash_false_of_ne hp)]
      exact ih

theorem lookupMerge_pop_other (ms : MergeState) (addr b : Nat) (hne : b ≠ addr) :
    lookupMerge (popMerge ms addr) b = lookupMerge ms b := by
  induction ms with
  | nil => rfl
  | cons p t ih =>
    unfold popMerge lookupMerge at ih ⊢
    by_cases hp : p.1 = addr
    · rw [List.filter_cons_of_neg (by simp [hp])]
      have hb : ¬ (p.1 == b) = true := beq_hash_false_of_ne (fun he => hne (he.symm.trans hp))
      rw [find?_cons_neg (fun q => q.1 == b) p t hb]
      exact ih
    · rw [List.filter_cons_of_pos (by simp [hp])]
      by_cases hpb : p.1 = b
      · rw [find?_cons_pos (fun q => q.1 == b) p _ (by simp only [beq_iff_eq]; exact hpb),
          find?_cons_pos (fun q => q.1 == b) p t (by simp only [beq_iff_eq]; exact hpb)]
      · rw [find?_cons_neg (fun q => q.1 == b) p _ (beq_hash_false_of_ne hpb),
          find?_cons_neg (fun q => q.1 == b) p t (beq_hash_false_of_ne hpb)]
        exact ih

/-- C6: classification of commit outcomes in the `ProcessOrderPending` loop
body: `NonceTooLow` shifts past the single transaction (the account's next
nonce stays available), `NonceTooHigh` pops the whole account while other
accounts are untouched, any other error shifts past the single transaction
without admitting it, and only a nil outcome appends the snapshot (with
`LendingId` back-filled) to the accepted list and records the matching
result. -/
theorem claim_C6_commit_classification {σ : Type}
    (commit : σ → AdmittedOrder → σ × CommitOutcome) (st : σ) (ms : MergeState)
    (items : List AdmittedOrder) (results : List (Nat × List AdmittedOrder))
    (addr : Nat) (tx : OrderTx) (v : Int)
    (hp : peekMerge ms = some (addr, tx)) (hv : parseSignatureV tx.V = some v) :
    (∀ st', commit st (decodeOrder tx v) = (st', .nonceTooLow) →
      processStep commit st ms items results = .cont st' (shiftMerge ms addr) items results) ∧
    (∀ st', commit st (decodeOrder tx v) = (st', .nonceTooHigh) →
      processStep commit st ms items results = .cont st' (popMerge ms addr) items results) ∧
    (∀ st' msg, commit st (decodeOrder tx v) = (st', .otherErr msg) →
      processStep commit st ms items results = .cont st' (shiftMerge ms addr) items results) ∧
    (∀ st' lendingId rejects, commit st (decodeOrder tx v) = (st', .ok lendingId rejects) →
      processStep commit st ms items results
        = .cont st' (shiftMerge ms addr)
            (items ++ [{ decodeOrder tx v with LendingId := lendingId }])
            (results ++ [((decodeOrder tx v).Hash, rejects)])) ∧
    lookupMerge (shiftMerge ms addr) addr = (lookupMerge ms addr).map List.tail ∧
    (∀ b, b ≠ addr → lookupMerge (shiftMerge ms addr) b = lookupMerge ms b) ∧
    lookupMerge (popMerge ms addr) addr = none ∧
    (∀ b, b ≠ addr → lookupMerge (popMerge ms addr) b = lookupMerge ms b) := by
  refine ⟨?_, ?_, ?_, ?_, lookupMerge_shift_self ms addr,
    fun b hb => lookupMerge_shift_other ms addr b hb, lookupMerge_pop_self ms addr,
    fun b hb => lookupMerge_pop_other ms addr b hb⟩
  · intro st' hc
    simp only [processStep, hp, hv, hc]
  · intro st' hc
    simp only [processStep, hp, hv, hc]
  · intro st' msg hc
    simp only [processStep, hp, hv, hc]
  · intro st' lendingId rejects hc
    simp only [processStep, hp, hv, hc]

/-- A transaction with a well-formed signature V (28). -/
def c6Tx : OrderTx := ⟨0, 28, 10, 1, 1, 9, .LendingStatusNew, .Limit, 0⟩

def c6Ms : MergeState := [(1, [c6Tx])]

/-- A commit oracle over `Nat` canonical state that reports a stale nonce. -/
def commitNonceTooLow : Nat → AdmittedOrder → Nat × CommitOutcome :=
  fun s _ => (s, .nonceTooLow)

/-- Witness for C6 at a concrete merge state and commit oracle. -/
theorem claim_C6_commit_classification_witness :
    peekMerge c6Ms = some (1, c6Tx) ∧ parseSignatureV c6Tx.V = some 28 ∧
    ((∀ st', commitNonceTooLow 0 (decodeOrder c6Tx 28) = (st', .nonceTooLow) →
      processStep commitNonceTooLow 0 c6Ms [] [] = .cont st' (shiftMerge c6Ms 1) [] []) ∧
    (∀ st', commitNonceTooLow 0 (decodeOrder c6Tx 28) = (st', .nonceTooHigh) →
      processStep commitNonceTooLow 0 c6Ms [] [] = .cont st' (popMerge c6Ms 1) [] []) ∧
    (∀ st' msg, commitNonceTooLow 0 (decodeOrder c6Tx 28) = (st', .otherErr msg) →
      processStep commitNonceTooLow 0 c6Ms [] [] = .cont st' (shiftMerge c6Ms 1) [] []) ∧
    (∀ st' lendingId rejects,
      commitNonceTooLow 0 (decodeOrder c6Tx 28) = (st', .ok lendingId rejects) →
      processStep commitNonceTooLow 0 c6Ms [] []
        = .cont st' (shiftMerge c6Ms 1)
            ([] ++ [{ decodeOrder c6Tx 28 with LendingId := lendingId }])
            ([] ++ [((decodeOrder c6Tx 28).Hash, rejects)])) ∧
    lookupMerge (shiftMerge c6Ms 1) 1 = (lookupMerge c6Ms 1).map List.tail ∧
    (∀ b, b ≠ 1 → lookupMerge (shiftMerge c6Ms 1) b = lookupMerge c6Ms b) ∧
    lookupMerge (popMerge c6Ms 1) 1 = none ∧
    (∀ b, b ≠ 1 → lookupMerge (popMerge c6Ms 1) b = lookupMerge c6Ms b)) :=
  ⟨by decide, by decide,
    claim_C6_commit_classification commitNonceTooLow 0 c6Ms [] [] 1 c6Tx 28
      (by decide) (by decide)⟩

/-! ## Determinism of the admission loop (claim C9) -/

theorem insertByKey_perm (p : Nat × List OrderTx) (l : MergeState) :
    (insertByKey p l).Perm (p :: l) := by
  induction l with
  | nil => exact List.Perm.refl _
  | cons q t ih =>
    unfold insertByKey
    by_cases h : p.1 ≤ q.1
    · rw [if_pos h]
    · rw [if_neg h]
      exact (List.Perm.cons q ih).trans (List.Perm.swap p q t)

theorem sortByKey_perm (l : MergeState) : (sortByKey l).Perm l := by
  induction l with
  | nil => exact List.Perm.refl _
  | cons p t ih =>
    unfold sortByKey
    exact (insertByKey_perm p (sortByKey t)).trans (List.Perm.cons p ih)

theorem insertByKey_sorted (p : Nat × List OrderTx) (l : MergeState)
    (hl : l.Pairwise (fun a b => a.1 ≤ b.1)) :
    (insertByKey p l).Pairwise (fun a b => a.1 ≤ b.1) := by
  induction l with
  | nil => simp [insertByKey]
  | cons q t ih =>
    unfold insertByKey
    rcases List.pairwise_cons.mp hl with ⟨hq, ht⟩
    by_cases h : p.1 ≤ q.1
    · rw [if_pos h]
      refine List.pairwise_cons.mpr ⟨?_, hl⟩
      intro b hb
      rcases List.mem_cons.mp hb with rfl | hbt
      · exact h
      · exact Nat.le_trans h (hq b hbt)
    · rw [if_neg h]
      refine List.pairwise_cons.mpr ⟨?_, ih ht⟩
      intro b hb
      have hmem : b ∈ p :: t := ((insertByKey_perm p t).mem_iff).mp hb
      rcases List.mem_cons.mp hmem with rfl | hbt
      · exact Nat.le_of_lt (Nat.lt_of_not_le h)
      · exact hq b hbt

theorem sortByKey_sorted (l : MergeState) :
    (sortByKey l).Pairwise (fun a b => a.1 ≤ b.1) := by
  induction l with
  | nil => exact List.Pairwise.nil
  | cons p t ih =>
    unfold sortByKey
    exact insertByKey_sorted p (sortByKey t) ih

/-- Two permutation-equivalent, key-sorted association lists with distinct
keys are equal. -/
theorem sorted_keys_nodup_perm_eq :
    ∀ (l l' : MergeState), l.Perm l' → l.Pairwise (fun a b => a.1 ≤ b.1) →
      l'.Pairwise (fun a b => a.1 ≤ b.1) → (l.map Prod.fst).Nodup → l = l' := by
  intro l
  induction l with
  | nil =>
    intro l' hperm _ _ _
    exact (List.Perm.eq_nil hperm.symm).symm
  | cons a t ih =>
    intro l' hperm hs hs' hnd
    cases l' with
    | nil => exact absurd (List.Perm.eq_nil hperm) (by simp)
    | cons b t' =>
      have hab : a = b := by
        by_contra hne
        have ha' : a ∈ b :: t' := hperm.mem_iff.mp (List.mem_cons_self a t)
        have hat' : a ∈ t' := by
          rcases List.mem_cons.mp ha' with h | h
          · exact absurd h hne
          · exact h
        have hb : b ∈ a :: t := hperm.symm.mem_iff.mp (List.mem_cons_self b t')
        have hbt : b ∈ t := by
          rcases List.mem_cons.mp hb with h | h
          · exact absurd h.symm hne
          · exact h
        have h1 : a.1 ≤ b.1 := (List.pairwise_cons.mp hs).1 b hbt
        have h2 : b.1 ≤ a.1 := (List.pairwise_cons.mp hs').1 a hat'
        have hkey : a.1 = b.1 := Nat.le_antisymm h1 h2
        rw [List.map_cons] at hnd
        have hmem : a.1 ∈ t.map Prod.fst := by
          rw [hkey]
          exact List.mem_map_of_mem Prod.fst hbt
        exact absurd hmem (List.nodup_cons.mp hnd).1
      subst hab
      have hperm' : t.Perm t' := hperm.cons_inv
      have htail := ih t' hperm' (List.pairwise_cons.mp hs).2 (List.pairwise_cons.mp hs').2
        (by rw [List.map_cons] at hnd; exact (List.nodup_cons.mp hnd).2)
      rw [htail]

/-- C9: `ProcessOrderPending` is deterministic — for a fixed commit oracle,
fixed canonical state and fixed fuel, any two enumeration orders of the same
per-account pending map (account keys distinct, as in a Go map) produce the
identical accepted-order list and matching-result list, because the merge
structure canonicalizes the accounts before the loop runs. -/
theorem claim_C9_deterministic {σ : Type} (commit : σ → AdmittedOrder → σ × CommitOutcome)
    (fuel : Nat) (st : σ) (l l' : List (Nat × List OrderTx)) (hperm : l.Perm l')
    (hnd : (l.map Prod.fst).Nodup) :
    processOrderPending commit fuel st l = processOrderPending commit fuel st l' := by
  unfold processOrderPending
  have hsort : sortByKey l = sortByKey l' :=
    sorted_keys_nodup_perm_eq _ _
      ((sortByKey_perm l).trans (hperm.trans (sortByKey_perm l').symm))
      (sortByKey_sorted l) (sortByKey_sorted l')
      (((sortByKey_perm l).map Prod.fst).nodup_iff.mpr hnd)
  rw [hsort]

def c9Tx2 : OrderTx := ⟨0, 27, 4, 2, 2, 8, .LendingStatusNew, .Limit, 0⟩

/-- Witness for C9: two enumeration orders of a two-account pending map. -/
theorem claim_C9_deterministic_witness :
    ([(1, [c6Tx]), (2, [c9Tx2])] : List (Nat × List OrderTx)).Perm
        [(2, [c9Tx2]), (1, [c6Tx])] ∧
    (([(1, [c6Tx]), (2, [c9Tx2])] : List (Nat × List OrderTx)).map Prod.fst).Nodup ∧
    processOrderPending commitAlwaysOk 10 0 [(1, [c6Tx]), (2, [c9Tx2])]
      = processOrderPending commitAlwaysOk 10 0 [(2, [c9Tx2]), (1, [c6Tx])] :=
  ⟨List.Perm.swap _ _ _, by decide,
    claim_C9_deterministic commitAlwaysOk 10 0 _ _ (List.Perm.swap _ _ _) (by decide)⟩

/-! ## Store errors during rollback (claim C4) -/

theorem cacheGet_cacheRemove_self (c : HistoryCache) (tx : Nat) :
    cacheGet (cacheRemove c tx) tx = none := by
  unfold cacheGet cacheRemove
  induction c.buckets with
  | nil => rfl
  | cons p t ih =>
    by_cases hp : p.1 = tx
    · rw [List.filter_cons_of_neg (by simp [hp])]
      exact ih
    · rw [List.filter_cons_of_pos (by simp [hp])]
      rw [find?_cons_neg (fun q => q.1 == tx) p _ (beq_hash_false_of_ne hp)]
      exact ih

/-- An item record stamped with transaction hash 5 for which the history
bucket has no entry (it will be deleted on rollback — and the delete is made
to fail). -/
def c4ItemA : LendingItem := ⟨1, 5, .LendingStatusOpen, .Limit, 10, 2, 40, 60, 11, 12⟩

/-- A second stamped record whose history snapshot exists. -/
def c4ItemB : LendingItem := ⟨2, 5, .LendingStatusFilled, .Limit, 20, 20, 40, 60, 11, 12⟩

def c4Db : MongoDB := ⟨[c4ItemA, c4ItemB], [⟨7, 5, 3, 2, 40, 60⟩]⟩

def c4Cache : HistoryCache :=
  ⟨[(5, [((11, 12, 2), ⟨9, some 4, .LendingStatusOpen, 50⟩)])]⟩

/-- Deleting item hash 1 fails. -/
def c4Fails : StoreFails := ⟨[], [], [1], false⟩

/-- C4 counterexample: the claim says a failing `DeleteObject`/`PutObject`
during `RollbackLendingItems` propagates up verbatim.  The Go function
returns nothing; a failing store operation is logged via `log.Error` and the
loop continues: here the delete of record 1 fails (the record survives, the
failure shows up only in the log) while the rollback still restores record 2
from its snapshot and still deletes the trades — it completes normally
instead of propagating the error. -/
theorem claim_C4_counterexample :
    (rollbackLendingItems c4Fails c4Db c4Cache 5).logs
        = ["SDKNode: failed to remove reorg lendingItem"] ∧
    getObject (rollbackLendingItems c4Fails c4Db c4Cache 5).db 1 = some c4ItemA ∧
    getObject (rollbackLendingItems c4Fails c4Db c4Cache 5).db 2
        = some ⟨2, 9, .LendingStatusOpen, .Limit, 20, 4, 40, 50, 11, 12⟩ ∧
    (rollbackLendingItems c4Fails c4Db c4Cache 5).db.trades = [] := by
  decide

/-- C4 as amended: store errors during `RollbackLendingItems` are logged and
swallowed, never returned — whatever store operations fail, the call always
runs to completion: every trade stamped with the hash is deleted and the
history-cache bucket is evicted. -/
theorem claim_C4_rollback_swallows_store_errors (fails : StoreFails) (db : MongoDB)
    (cache : HistoryCache) (txhash : Nat) :
    (∀ t, t ∈ (rollbackLendingItems fails db cache txhash).db.trades → t.TxHash ≠ txhash) ∧
    cacheGet (rollbackLendingItems fails db cache txhash).cache txhash = none := by
  constructor
  · intro t ht
    unfold rollbackLendingItems deleteLendingTradeByTxHash at ht
    dsimp only at ht
    have hmem := (List.mem_filter.mp ht).2
    exact of_decide_eq_true hmem
  · exact cacheGet_cacheRemove_self cache txhash

/-- Witness for the amended C4 at the concrete failing scenario. -/
theorem claim_C4_rollback_swallows_store_errors_witness :
    (∀ t, t ∈ (rollbackLendingItems c4Fails c4Db c4Cache 5).db.trades → t.TxHash ≠ 5) ∧
    cacheGet (rollbackLendingItems c4Fails c4Db c4Cache 5).cache 5 = none :=
  claim_C4_rollback_swallows_store_errors c4Fails c4Db c4Cache 5

/-! ## Cache and fetch-list lemmas for the rollback proof (claim C2) -/

theorem find?_pair_map_replace_self {β : Type} (l : List (Nat × β)) (k : Nat) (b : β)
    (hany : l.any (fun p => p.1 == k) = true) :
    (l.map (fun p => if p.1 == k then (k, b) else p)).find? (fun p => p.1 == k)
      = some (k, b) := by
  induction l with
  | nil => cases hany
  | cons a t ih =>
    rw [List.map_cons]
    by_cases ha : a.1 = k
    · rw [if_pos (by simp only [beq_iff_eq]; exact ha)]
      rw [find?_cons_pos (fun p => p.1 == k) (k, b) _ (by simp only [beq_iff_eq])]
    · rw [if_neg (by simp only [beq_iff_eq]; exact ha)]
      rw [find?_cons_neg (fun p => p.1 == k) a _ (beq_hash_false_of_ne ha)]
      rw [List.any_cons] at hany
      have ht : t.any (fun p => p.1 == k) = true := by
        rcases Bool.or_eq_true_iff.mp hany with hx | hx
        · exact absurd (by simpa using hx) ha
        · exact hx
      exact ih ht

theorem find?_pair_append_self {β : Type} (l : List (Nat × β)) (k : Nat) (b : β)
    (hany : l.any (fun p => p.1 == k) = false) :
    (l ++ [(k, b)]).find? (fun p => p.1 == k) = some (k, b) := by
  induction l with
  | nil =>
    rw [List.nil_append, find?_cons_pos (fun p => p.1 == k) (k, b) []
      (by simp only [beq_iff_eq])]
  | cons a t ih =>
    rw [List.any_cons] at hany
    rcases Bool.or_eq_false_iff.mp hany with ⟨h1, h2⟩
    rw [List.cons_append,
      find?_cons_neg (fun p => p.1 == k) a _
        (by
          intro hx
          have hx' : (a.1 == k) = true := hx
          rw [h1] at hx'
          exact Bool.false_ne_true hx')]
    exact ih h2

theorem cacheGet_cacheSet_self (c : HistoryCache) (tx : Nat) (b : HistBucket) :
    cacheGet (cacheSet c tx b) tx = some b := by
  unfold cacheGet cacheSet
  by_cases hany : c.buckets.any (fun p => p.1 == tx) = true
  · rw [if_pos hany]
    show ((c.buckets.map (fun p => if p.1 == tx then (tx, b) else p)).find?
      (fun p => p.1 == tx)).map (fun p => p.2) = some b
    rw [find?_pair_map_replace_self c.buckets tx b hany]
    rfl
  · rw [if_neg hany]
    show ((c.buckets ++ [(tx, b)]).find? (fun p => p.1 == tx)).map (fun p => p.2) = some b
    rw [find?_pair_append_self c.buckets tx b (Bool.not_eq_true _ ▸ hany)]
    rfl

theorem bucketFind_mem (b : HistBucket) (k : Nat × Nat × Nat) (e : LendingItemHistoryItem)
    (hf : bucketFind b k = some e) : (k, e) ∈ b := by
  unfold bucketFind at hf
  rcases Option.map_eq_some'.mp hf with ⟨p, hp, hpe⟩
  have hpk : p.1 = k := by
    have := List.find?_some hp
    simpa using this
  have hmem := List.mem_of_find?_eq_some hp
  have : p = (k, e) := by
    rcases p with ⟨p1, p2⟩
    simp only at hpk hpe
    rw [hpk, hpe]
  rw [← this]
  exact hmem

theorem bucketFind_append_isSome (b : HistBucket) (x : (Nat × Nat × Nat) × LendingItemHistoryItem)
    (k : Nat × Nat × Nat) (h : (bucketFind b k).isSome = true) :
    (bucketFind (b ++ [x]) k).isSome = true := by
  unfold bucketFind at h ⊢
  rcases hf : b.find? (fun p => p.1 == k) with _ | p
  · rw [hf] at h
    cases h
  · rw [List.find?_append, hf]
    rfl

theorem bucketFind_append_self (b : HistBucket) (k : Nat × Nat × Nat)
    (e : LendingItemHistoryItem) (habs : bucketFind b k = none) :
    bucketFind (b ++ [(k, e)]) k = some e := by
  unfold bucketFind at habs ⊢
  rcases hf : b.find? (fun p => p.1 == k) with _ | p
  · rw [List.find?_append, hf]
    show (([((k, e))].find? (fun p => p.1 == k)).map (fun p => p.2)) = some e
    rw [find?_cons_pos (fun p => p.1 == k) (k, e) [] (by simp only [beq_iff_eq])]
    rfl
  · rw [hf] at habs
    cases habs

/-- The bucket stored back by `UpdateLendingItemCache`. -/
theorem updateLendingItemCache_get (c : HistoryCache) (lt ct h txh : Nat)
    (e : LendingItemHistoryItem) :
    cacheGet (updateLendingItemCache c lt ct h txh e) txh
      = some (match bucketFind ((cacheGet c txh).getD []) (lt, ct, h) with
          | some _ => (cacheGet c txh).getD []
          | none => (cacheGet c txh).getD [] ++ [((lt, ct, h), e)]) := by
  unfold updateLendingItemCache
  exact cacheGet_cacheSet_self c txh _

/-- `UpdateLendingItemCache` never removes a bucket entry. -/
theorem updateLendingItemCache_mono (c : HistoryCache) (lt ct h txh : Nat)
    (e : LendingItemHistoryItem) (k : Nat × Nat × Nat) (B : HistBucket)
    (hB : cacheGet c txh = some B) (hk : (bucketFind B k).isSome = true) :
    ∀ B', cacheGet (updateLendingItemCache c lt ct h txh e) txh = some B' →
      (bucketFind B' k).isSome = true := by
  intro B' hB'
  rw [updateLendingItemCache_get] at hB'
  rw [hB] at hB'
  simp only [Option.getD_some] at hB'
  rcases hf : bucketFind B (lt, ct, h) with _ | p
  · rw [hf] at hB'
    cases hB'
    exact bucketFind_append_isSome B _ k hk
  · rw [hf] at hB'
    cases hB'
    exact hk

theorem dedupKeysAux_mem (x : Nat) :
    ∀ (l seen : List Nat), x ∈ dedupKeysAux l seen → x ∈ l ∧ x ∉ seen := by
  intro l
  induction l with
  | nil => intro seen hx; cases hx
  | cons h t ih =>
    intro seen hx
    unfold dedupKeysAux at hx
    by_cases hh : h ∈ seen
    · rw [if_pos hh] at hx
      rcases ih seen hx with ⟨h1, h2⟩
      exact ⟨List.mem_cons_of_mem h h1, h2⟩
    · rw [if_neg hh] at hx
      rcases List.mem_cons.mp hx with rfl | hx'
      · exact ⟨List.mem_cons_self x t, hh⟩
      · rcases ih (h :: seen) hx' with ⟨h1, h2⟩
        exact ⟨List.mem_cons_of_mem h h1, fun hs => h2 (List.mem_cons_of_mem h hs)⟩

theorem dedupKeysAux_nodup : ∀ (l seen : List Nat), (dedupKeysAux l seen).Nodup := by
  intro l
  induction l with
  | nil => intro seen; exact List.nodup_nil
  | cons h t ih =>
    intro seen
    unfold dedupKeysAux
    by_cases hh : h ∈ seen
    · rw [if_pos hh]
      exact ih seen
    · rw [if_neg hh]
      refine List.nodup_cons.mpr ⟨?_, ih (h :: seen)⟩
      intro hmem
      exact (dedupKeysAux_mem h t (h :: seen) hmem).2 (List.mem_cons_self h seen)

theorem dedupKeys_nodup (l : List Nat) : (dedupKeys l).Nodup :=
  dedupKeysAux_nodup l []

/-- Every record returned by `GetListLendingItemByHashes` is current in the
store it was fetched from. -/
theorem getList_current (d : MongoDB) (hs : List Nat) (m : LendingItem)
    (hm : m ∈ getListLendingItemByHashes d hs) : getObject d m.Hash = some m := by
  unfold getListLendingItemByHashes at hm
  rcases List.mem_filterMap.mp hm with ⟨k, _, hk⟩
  have := getObject_hash d k m hk
  rw [this]
  exact hk

theorem filterMap_getObject_pairwise (d : MongoDB) :
    ∀ (ks : List Nat), ks.Nodup →
      (ks.filterMap (getObject d)).Pairwise (fun a b => a.Hash ≠ b.Hash) := by
  intro ks
  induction ks with
  | nil => intro _; exact List.Pairwise.nil
  | cons k t ih =>
    intro hnd
    rcases List.nodup_cons.mp hnd with ⟨hk, ht⟩
    rw [List.filterMap_cons]
    rcases hg : getObject d k with _ | m
    · exact ih ht
    · refine List.pairwise_cons.mpr ⟨?_, ih ht⟩
      intro b hb
      rcases List.mem_filterMap.mp hb with ⟨k', hk', hgb⟩
      have hbk' : b.Hash = k' := getObject_hash d k' b hgb
      have hmk : m.Hash = k := getObject_hash d k m hg
      rw [hbk', hmk]
      intro he
      exact hk (he ▸ hk')

/-- The records returned by `GetListLendingItemByHashes` carry pairwise
distinct hashes. -/
theorem getList_pairwise_hash (d : MongoDB) (hs : List Nat) :
    (getListLendingItemByHashes d hs).Pairwise (fun a b => a.Hash ≠ b.Hash) :=
  filterMap_getObject_pairwise d (dedupKeys hs) (dedupKeys_nodup hs)

/-! ## The synchronization invariant behind rollback correctness (claim C2) -/

/-- The invariant `SyncDataToSDKNode` maintains over the store and the
`txHash` history bucket, relative to the pre-call store `db0`: every bucket
entry is the pre-call snapshot of the record at its key hash, records are
never deleted, unstamped records are untouched, and every stamped record has
a bucket entry under its own key. -/
def SyncInvB (db0 : MongoDB) (tx : Nat) (db : MongoDB) (B : HistBucket) : Prop :=
  (db.items.map (fun o => o.Hash)).Nodup ∧
  (∀ p, p ∈ B → p.2 = histOfOpt (getObject db0 p.1.2.2)) ∧
  (∀ h, getObject db h = none → getObject db0 h = none) ∧
  (∀ h o, getObject db h = some o → o.TxHash ≠ tx → getObject db0 h = some o) ∧
  (∀ h o, getObject db h = some o → o.TxHash = tx →
    (bucketFind B (o.LendingToken, o.CollateralToken, o.Hash)).isSome = true)

def SyncInv (db0 : MongoDB) (tx : Nat) (db : MongoDB) (cache : HistoryCache) : Prop :=
  ∃ B, cacheGet cache tx = some B ∧ SyncInvB db0 tx db B

/-- The history bucket for `tx` holds an entry at key `k`. -/
def PresE (tx : Nat) (k : Nat × Nat × Nat) (cache : HistoryCache) : Prop :=
  ∃ B, cacheGet cache tx = some B ∧ (bucketFind B k).isSome = true

theorem dbSetItem_nodup (d : MongoDB) (o : LendingItem)
    (hnd : (d.items.map (fun j => j.Hash)).Nodup) :
    ((dbSetItem d o).items.map (fun j => j.Hash)).Nodup := by
  unfold dbSetItem
  by_cases hany : d.items.any (fun j => j.Hash == o.Hash) = true
  · rw [if_pos hany]
    show ((d.items.map (fun j => if j.Hash == o.Hash then o else j)).map (fun j => j.Hash)).Nodup
    rw [List.map_map]
    have heq : d.items.map ((fun j => j.Hash) ∘ (fun j => if j.Hash == o.Hash then o else j))
        = d.items.map (fun j => j.Hash) := by
      apply List.map_congr_left
      intro j _
      by_cases hj : j.Hash = o.Hash
      · simp only [Function.comp]
        rw [if_pos (by simp only [beq_iff_eq]; exact hj), hj]
      · simp only [Function.comp]
        rw [if_neg (by simp only [beq_iff_eq]; exact hj)]
    rw [heq]
    exact hnd
  · rw [if_neg hany]
    show ((d.items ++ [o]).map (fun j => j.Hash)).Nodup
    rw [List.map_append]
    refine List.Nodup.append hnd (List.nodup_singleton _) ?_
    intro a ha hb
    rcases List.mem_map.mp ha with ⟨j, hj, hja⟩
    rcases List.mem_singleton.mp hb with rfl
    apply hany
    rw [List.any_eq_true]
    exact ⟨j, hj, by simp only [beq_iff_eq]; exact hja⟩

/-- Writing a record stamped with `tx`, whose own key already has a bucket
entry, preserves the invariant. -/
theorem SyncInvB_write (db0 : MongoDB) (tx : Nat) (d : MongoDB) (B : HistBucket)
    (w : LendingItem) (hinvB : SyncInvB db0 tx d B) (hstamp : w.TxHash = tx)
    (hkey : (bucketFind B (w.LendingToken, w.CollateralToken, w.Hash)).isSome = true) :
    SyncInvB db0 tx (dbSetItem d w) B := by
  obtain ⟨hnd, hC4, hC1, hC2, hC3⟩ := hinvB
  refine ⟨dbSetItem_nodup d w hnd, hC4, ?_, ?_, ?_⟩
  · intro h hg
    rw [getObject_dbSetItem] at hg
    by_cases hh : h = w.Hash
    · rw [if_pos hh] at hg
      cases hg
    · rw [if_neg hh] at hg
      exact hC1 h hg
  · intro h o hg ho
    rw [getObject_dbSetItem] at hg
    by_cases hh : h = w.Hash
    · rw [if_pos hh] at hg
      cases hg
      exact absurd hstamp ho
    · rw [if_neg hh] at hg
      exact hC2 h o hg ho
  · intro h o hg ho
    rw [getObject_dbSetItem] at hg
    by_cases hh : h = w.Hash
    · rw [if_pos hh] at hg
      cases hg
      exact hkey
    · rw [if_neg hh] at hg
      exact hC3 h o hg ho

/-- Appending a correct snapshot entry to the bucket preserves the
invariant. -/
theorem SyncInvB_extend (db0 : MongoDB) (tx : Nat) (d : MongoDB) (B : HistBucket)
    (k : Nat × Nat × Nat) (e : LendingItemHistoryItem) (hinvB : SyncInvB db0 tx d B)
    (he : e = histOfOpt (getObject db0 k.2.2)) :
    SyncInvB db0 tx d (B ++ [(k, e)]) := by
  obtain ⟨hnd, hC4, hC1, hC2, hC3⟩ := hinvB
  refine ⟨hnd, ?_, hC1, hC2, ?_⟩
  · intro p hp
    rcases List.mem_append.mp hp with hp | hp
    · exact hC4 p hp
    · rw [List.mem_singleton] at hp
      subst hp
      exact he
  · intro h o hg ho
    exact bucketFind_append_isSome B _ _ (hC3 h o hg ho)

theorem getObject_congr_items (d d' : MongoDB) (hi : d.items = d'.items) (h : Nat) :
    getObject d h = getObject d' h := by
  unfold getObject
  rw [hi]

/-- PresE is monotone under `UpdateLendingItemCache` (buckets only grow). -/
theorem PresE_update (tx : Nat) (k : Nat × Nat × Nat) (c : HistoryCache)
    (lt ct h : Nat) (e : LendingItemHistoryItem) (hpres : PresE tx k c) :
    PresE tx k (updateLendingItemCache c lt ct h tx e) := by
  obtain ⟨B, hB, hk⟩ := hpres
  have hget := updateLendingItemCache_get c lt ct h tx e
  rw [hB] at hget
  simp only [Option.getD_some] at hget
  rcases hf : bucketFind B (lt, ct, h) with _ | e0
  · rw [hf] at hget
    exact ⟨_, hget, bucketFind_append_isSome B _ _ hk⟩
  · rw [hf] at hget
    exact ⟨B, hget, hk⟩

/-- One maker iteration preserves the synchronization invariant and any
bucket-entry presence, given the maker record is current in the store. -/
theorem processMaker_inv_step (db0 : MongoDB) (fails : StoreFails) (tx : Nat) (time : Int)
    (amt : List (Nat × Int)) (ku : Nat × Nat × Nat) (s : DbCacheSt) (m : LendingItem)
    (hinv : SyncInv db0 tx s.db s.cache) (hpres : PresE tx ku s.cache)
    (hcur : getObject s.db m.Hash = some m)
    (hok : (processMaker fails tx time amt s m).1 = none) :
    SyncInv db0 tx (processMaker fails tx time amt s m).2.db
        (processMaker fails tx time amt s m).2.cache
      ∧ PresE tx ku (processMaker fails tx time amt s m).2.cache := by
  obtain ⟨B, hB, hinvB⟩ := hinv
  unfold processMaker at hok ⊢
  by_cases h1 : time < m.UpdatedAt
  · rw [if_pos h1]
    exact ⟨⟨B, hB, hinvB⟩, hpres⟩
  · rw [if_neg h1] at hok ⊢
    dsimp only at hok ⊢
    by_cases h2 : m.Hash ∈ fails.putItems
    · rw [if_pos h2] at hok
      exact absurd hok (by simp)
    · rw [if_neg h2]
      have hget := updateLendingItemCache_get s.cache m.LendingToken m.CollateralToken m.Hash tx
        (histOf m)
      rw [hB] at hget
      simp only [Option.getD_some] at hget
      refine ⟨?_, PresE_update tx ku s.cache _ _ _ _ hpres⟩
      rcases hf : bucketFind B (m.LendingToken, m.CollateralToken, m.Hash) with _ | e0
      · rw [hf] at hget
        have hmun : m.TxHash ≠ tx := by
          intro hstamp
          have hsome := hinvB.2.2.2.2 m.Hash m hcur hstamp
          rw [getObject_hash s.db m.Hash m hcur] at hsome
          rw [hf] at hsome
          cases hsome
        have hm0 : getObject db0 m.Hash = some m := hinvB.2.2.2.1 m.Hash m hcur hmun
        refine ⟨B ++ [((m.LendingToken, m.CollateralToken, m.Hash), histOf m)], hget, ?_⟩
        have hext : SyncInvB db0 tx s.db
            (B ++ [((m.LendingToken, m.CollateralToken, m.Hash), histOf m)]) :=
          SyncInvB_extend db0 tx s.db B _ _ hinvB (by rw [hm0]; rfl)
        exact SyncInvB_write db0 tx s.db _ _ hext rfl
          (by
            rw [bucketFind_append_self B _ _ hf]
            rfl)
      · rw [hf] at hget
        refine ⟨B, hget, ?_⟩
        exact SyncInvB_write db0 tx s.db B _ hinvB rfl (by rw [hf]; rfl)

/-- One maker iteration only writes its own hash. -/
theorem processMaker_frame (fails : StoreFails) (tx : Nat) (time : Int)
    (amt : List (Nat × Int)) (s : DbCacheSt) (m : LendingItem) (h : Nat)
    (hne : h ≠ m.Hash) :
    getObject (processMaker fails tx time amt s m).2.db h = getObject s.db h := by
  unfold processMaker
  by_cases h1 : time < m.UpdatedAt
  · rw [if_pos h1]
  · rw [if_neg h1]
    dsimp only
    by_cases h2 : m.Hash ∈ fails.putItems
    · rw [if_pos h2]
    · rw [if_neg h2]
      show getObject (dbSetItem s.db _) h = getObject s.db h
      rw [getObject_dbSetItem, if_neg hne]

/-- One dirty-reject iteration preserves the synchronization invariant and
presence, given the record is current in the store. -/
theorem processRejectDirty_inv_step (db0 : MongoDB) (fails : StoreFails) (tx : Nat)
    (time : Int) (amt : List (Nat × Int)) (ku : Nat × Nat × Nat) (s : DbCacheSt)
    (r : LendingItem) (hinv : SyncInv db0 tx s.db s.cache) (hpres : PresE tx ku s.cache)
    (hcur : getObject s.db r.Hash = some r)
    (hok : (processRejectDirty fails tx time amt s r).1 = none) :
    SyncInv db0 tx (processRejectDirty fails tx time amt s r).2.db
        (processRejectDirty fails tx time amt s r).2.cache
      ∧ PresE tx ku (processRejectDirty fails tx time amt s r).2.cache := by
  obtain ⟨B, hB, hinvB⟩ := hinv
  unfold processRejectDirty at hok ⊢
  by_cases h1 : time < r.UpdatedAt
  · rw [if_pos h1]
    exact ⟨⟨B, hB, hinvB⟩, hpres⟩
  · rw [if_neg h1] at hok ⊢
    dsimp only at hok ⊢
    by_cases h2 : r.Hash ∈ fails.putItems
    · rw [if_pos h2] at hok
      exact absurd hok (by simp)
    · rw [if_neg h2]
      have hget := updateLendingItemCache_get s.cache r.LendingToken r.CollateralToken r.Hash tx
        (histOf r)
      rw [hB] at hget
      simp only [Option.getD_some] at hget
      refine ⟨?_, PresE_update tx ku s.cache _ _ _ _ hpres⟩
      rcases hf : bucketFind B (r.LendingToken, r.CollateralToken, r.Hash) with _ | e0
      · rw [hf] at hget
        have hrun : r.TxHash ≠ tx := by
          intro hstamp
          have hsome := hinvB.2.2.2.2 r.Hash r hcur hstamp
          rw [getObject_hash s.db r.Hash r hcur] at hsome
          rw [hf] at hsome
          cases hsome
        have hr0 : getObject db0 r.Hash = some r := hinvB.2.2.2.1 r.Hash r hcur hrun
        refine ⟨B ++ [((r.LendingToken, r.CollateralToken, r.Hash), histOf r)], hget, ?_⟩
        have hext : SyncInvB db0 tx s.db
            (B ++ [((r.LendingToken, r.CollateralToken, r.Hash), histOf r)]) :=
          SyncInvB_extend db0 tx s.db B _ _ hinvB (by rw [hr0]; rfl)
        exact SyncInvB_write db0 tx s.db _ _ hext rfl
          (by
            rw [bucketFind_append_self B _ _ hf]
            rfl)
      · rw [hf] at hget
        refine ⟨B, hget, ?_⟩
        exact SyncInvB_write db0 tx s.db B _ hinvB rfl (by rw [hf]; rfl)

/-- One dirty-reject iteration only writes its own hash. -/
theorem processRejectDirty_frame (fails : StoreFails) (tx : Nat) (time : Int)
    (amt : List (Nat × Int)) (s : DbCacheSt) (r : LendingItem) (h : Nat)
    (hne : h ≠ r.Hash) :
    getObject (processRejectDirty fails tx time amt s r).2.db h = getObject s.db h := by
  unfold processRejectDirty
  by_cases h1 : time < r.UpdatedAt
  · rw [if_pos h1]
  · rw [if_neg h1]
    dsimp only
    by_cases h2 : r.Hash ∈ fails.putItems
    · rw [if_pos h2]
    · rw [if_neg h2]
      show getObject (dbSetItem s.db _) h = getObject s.db h
      rw [getObject_dbSetItem, if_neg hne]

/-- Fold over fetched records with pairwise-distinct hashes: a step property
that holds whenever the processed record is current in the store is
preserved along the whole fold, because each step writes only its own
hash. -/
theorem dbCacheFold_inv (P : DbCacheSt → Prop)
    (f : DbCacheSt → LendingItem → Option String × DbCacheSt)
    (hstep : ∀ s m, P s → getObject s.db m.Hash = some m → (f s m).1 = none → P (f s m).2)
    (hframe : ∀ s m h, (f s m).1 = none → h ≠ m.Hash →
      getObject (f s m).2.db h = getObject s.db h) :
    ∀ (items : List LendingItem) (s : DbCacheSt), P s →
      (∀ m, m ∈ items → getObject s.db m.Hash = some m) →
      items.Pairwise (fun a b => a.Hash ≠ b.Hash) →
      (foldStop f s items).1 = none → P (foldStop f s items).2 := by
  intro items
  induction items with
  | nil => intro s hP _ _ _; exact hP
  | cons m rest ih =>
    intro s hP hcur hpw hok
    rw [foldStop] at hok ⊢
    rcases hstep0 : f s m with ⟨e, s'⟩
    rw [hstep0] at hok
    cases e with
    | some e0 => exact Option.noConfusion hok
    | none =>
      have hok0 : (f s m).1 = none := by rw [hstep0]
      have hP' : P s' := by
        have := hstep s m hP (hcur m (List.mem_cons_self m rest)) hok0
        rw [hstep0] at this
        exact this
      have hcur' : ∀ m', m' ∈ rest → getObject s'.db m'.Hash = some m' := by
        intro m' hm'
        have hhne : m'.Hash ≠ m.Hash := by
          intro he
          exact (List.pairwise_cons.mp hpw).1 m' hm' he.symm
        have hfr := hframe s m m'.Hash hok0 hhne
        rw [hstep0] at hfr
        rw [hfr]
        exact hcur m' (List.mem_cons_of_mem m hm')
      exact ih s' hP' hcur' (List.pairwise_cons.mp hpw).2 hok

/-- One taker-reject iteration preserves the invariant, presence at the
taker key, and the taker-identifying fields. -/
theorem processRejectTaker_inv_step (db0 : MongoDB) (fails : StoreFails) (tx : Nat)
    (time : Int) (u : LendingItem) (s : RejectLoopSt) (r : LendingItem)
    (hinv : SyncInv db0 tx s.db s.cache)
    (hpres : PresE tx (u.LendingToken, u.CollateralToken, u.Hash) s.cache)
    (hflds : s.taker.LendingToken = u.LendingToken ∧ s.taker.CollateralToken = u.CollateralToken
      ∧ s.taker.Hash = u.Hash)
    (hok : (processRejectTaker fails tx time s r).1 = none) :
    SyncInv db0 tx (processRejectTaker fails tx time s r).2.db
        (processRejectTaker fails tx time s r).2.cache
      ∧ PresE tx (u.LendingToken, u.CollateralToken, u.Hash)
          (processRejectTaker fails tx time s r).2.cache
      ∧ (processRejectTaker fails tx time s r).2.taker.LendingToken = u.LendingToken
      ∧ (processRejectTaker fails tx time s r).2.taker.CollateralToken = u.CollateralToken
      ∧ (processRejectTaker fails tx time s r).2.taker.Hash = u.Hash := by
  obtain ⟨B, hB, hinvB⟩ := hinv
  unfold processRejectTaker at hok ⊢
  by_cases h1 : s.taker.Hash = r.Hash ∧ ¬ time < r.UpdatedAt
  · rw [if_pos h1] at hok ⊢
    dsimp only at hok ⊢
    by_cases h2 : s.taker.Hash ∈ fails.putItems
    · rw [if_pos h2] at hok
      exact absurd hok (by simp)
    · rw [if_neg h2]
      have hget := updateLendingItemCache_get s.cache s.taker.LendingToken
        s.taker.CollateralToken s.taker.Hash tx (histOf s.taker)
      rw [hB] at hget
      simp only [Option.getD_some] at hget
      have hkeyu : (s.taker.LendingToken, s.taker.CollateralToken, s.taker.Hash)
          = (u.LendingToken, u.CollateralToken, u.Hash) := by
        rw [hflds.1, hflds.2.1, hflds.2.2]
      have hkB : (bucketFind B (s.taker.LendingToken, s.taker.CollateralToken, s.taker.Hash)).isSome
          = true := by
        rw [hkeyu]
        obtain ⟨B', hB', hk'⟩ := hpres
        rw [hB] at hB'
        cases hB'
        exact hk'
      rcases hf : bucketFind B (s.taker.LendingToken, s.taker.CollateralToken, s.taker.Hash)
        with _ | e0
      · rw [hf] at hkB
        cases hkB
      · rw [hf] at hget
        refine ⟨⟨B, hget, ?_⟩, ?_, hflds.1, hflds.2.1, hflds.2.2⟩
        · exact SyncInvB_write db0 tx s.db B _ hinvB rfl (by rw [hf]; rfl)
        · exact PresE_update tx _ s.cache _ _ _ _ hpres
  · rw [if_neg h1]
    exact ⟨⟨B, hB, hinvB⟩, hpres, hflds.1, hflds.2.1, hflds.2.2⟩

/-- The rejected-items phase preserves the invariant and presence. -/
theorem syncPhaseRejects_inv (db0 : MongoDB) (fails : StoreFails) (tx : Nat) (time : Int)
    (amt : List (Nat × Int)) (u taker2 : LendingItem) (rejects : List LendingItem)
    (s : DbCacheSt) (hinv : SyncInv db0 tx s.db s.cache)
    (hpres : PresE tx (u.LendingToken, u.CollateralToken, u.Hash) s.cache)
    (hflds : taker2.LendingToken = u.LendingToken ∧ taker2.CollateralToken = u.CollateralToken
      ∧ taker2.Hash = u.Hash)
    (hok : (syncPhaseRejects fails tx time amt taker2 rejects s).1 = none) :
    SyncInv db0 tx (syncPhaseRejects fails tx time amt taker2 rejects s).2.db
      (syncPhaseRejects fails tx time amt taker2 rejects s).2.cache := by
  unfold syncPhaseRejects at hok ⊢
  by_cases hemp : rejects.isEmpty = true
  · rw [if_pos hemp]
    exact hinv
  · rw [if_neg hemp] at hok ⊢
    rcases h1 : foldStop (processRejectTaker fails tx time) ⟨s.db, s.cache, taker2⟩ rejects
      with ⟨e1, rst⟩
    rw [h1] at hok
    cases e1 with
    | some e0 => exact Option.noConfusion hok
    | none =>
      have hfold := foldStop_preserve (processRejectTaker fails tx time)
        (fun st => SyncInv db0 tx st.db st.cache
          ∧ PresE tx (u.LendingToken, u.CollateralToken, u.Hash) st.cache
          ∧ st.taker.LendingToken = u.LendingToken
          ∧ st.taker.CollateralToken = u.CollateralToken
          ∧ st.taker.Hash = u.Hash)
        (fun st a hst hok0 =>
          (processRejectTaker_inv_step db0 fails tx time u st a hst.1 hst.2.1
            ⟨hst.2.2.1, hst.2.2.2.1, hst.2.2.2.2⟩ hok0))
        rejects ⟨s.db, s.cache, taker2⟩
        ⟨hinv, hpres, hflds.1, hflds.2.1, hflds.2.2⟩ (by rw [h1])
      rw [h1] at hfold
      have hloop2 := dbCacheFold_inv
        (fun st => SyncInv db0 tx st.db st.cache
          ∧ PresE tx (u.LendingToken, u.CollateralToken, u.Hash) st.cache)
        (processRejectDirty fails tx time amt)
        (fun st m hst hcur hok0 =>
          processRejectDirty_inv_step db0 fails tx time amt _ st m hst.1 hst.2 hcur hok0)
        (fun st m h hok0 hne => processRejectDirty_frame fails tx time amt st m h hne)
        (getListLendingItemByHashes rst.db (rejects.map (fun r => r.Hash)))
        ⟨rst.db, rst.cache⟩ ⟨hfold.1, hfold.2.1⟩
        (fun m hm => getList_current rst.db _ m hm)
        (getList_pairwise_hash rst.db _) hok
      exact hloop2.1

/-- The maker phase preserves the invariant and presence. -/
theorem syncPhaseMakers_inv (db0 : MongoDB) (fails : StoreFails) (tx : Nat) (time : Int)
    (amt : List (Nat × Int)) (hashes : List Nat) (ku : Nat × Nat × Nat) (s : DbCacheSt)
    (hinv : SyncInv db0 tx s.db s.cache) (hpres : PresE tx ku s.cache)
    (hok : (syncPhaseMakers fails tx time amt hashes s).1 = none) :
    SyncInv db0 tx (syncPhaseMakers fails tx time amt hashes s).2.db
        (syncPhaseMakers fails tx time amt hashes s).2.cache
      ∧ PresE tx ku (syncPhaseMakers fails tx time amt hashes s).2.cache := by
  unfold syncPhaseMakers at hok ⊢
  exact dbCacheFold_inv (fun st => SyncInv db0 tx st.db st.cache ∧ PresE tx ku st.cache)
    (processMaker fails tx time amt)
    (fun st m hst hcur hok0 =>
      processMaker_inv_step db0 fails tx time amt ku st m hst.1 hst.2 hcur hok0)
    (fun st m h _ hne => processMaker_frame fails tx time amt st m h hne)
    (getListLendingItemByHashes s.db hashes) s ⟨hinv, hpres⟩
    (fun m hm => getList_current s.db hashes m hm)
    (getList_pairwise_hash s.db hashes) hok

theorem bucketFind_singleton_self (k : Nat × Nat × Nat) (e : LendingItemHistoryItem) :
    bucketFind [(k, e)] k = some e := by
  unfold bucketFind
  rw [find?_cons_pos (fun p => p.1 == k) (k, e) [] (by simp)]
  rfl

/-- `syncUpdatedTaker` stamps the transaction hash. -/
theorem syncUpdatedTaker_txHash (db : MongoDB) (taker : LendingItem) (txh : Nat) (time : Int) :
    (syncUpdatedTaker db taker txh time).TxHash = txh := by
  unfold syncUpdatedTaker
  rcases hg : getObject db taker.Hash with _ | o <;>
    · dsimp only [Option.getD]
      split <;> rfl

/-- After a successful post-gate synchronization starting from a store with
no record stamped `txh` and no history bucket for `txh`, the synchronization
invariant holds between the original store and the final store/cache. -/
theorem syncAfterGate_ok_inv (fails : StoreFails) (db : MongoDB) (cache : HistoryCache)
    (u : LendingItem) (ls : LendingItemHistoryItem) (txh : Nat) (time : Int)
    (trades : List LendingTrade) (rejects : List LendingItem) (d : Nat)
    (hfreshB : cacheGet cache txh = none)
    (hfreshT : ∀ o, o ∈ db.items → o.TxHash ≠ txh)
    (hnd : (db.items.map (fun o => o.Hash)).Nodup)
    (hls : ls = histOfOpt (getObject db u.Hash))
    (hustamp : u.TxHash = txh)
    (hok : (syncAfterGate fails db cache u ls txh time trades rejects d).err = none) :
    SyncInv db txh (syncAfterGate fails db cache u ls txh time trades rejects d).db
      (syncAfterGate fails db cache u ls txh time trades rejects d).cache := by
  unfold syncAfterGate at hok ⊢
  dsimp only at hok ⊢
  rcases h1 : foldStop (processTrade fails time) ⟨db, { u with UpdatedAt := time }, [], []⟩ trades
    with ⟨e1, st1⟩
  rw [h1] at hok
  cases e1 with
  | some e0 => exact absurd hok (by simp)
  | none =>
    dsimp only at hok ⊢
    have hitems : st1.db.items = db.items := by
      have := foldStop_invariant_fun (processTrade fails time) (fun s => s.db.items)
        (fun st a => (processTrade_frame fails time st a).1) trades
        ⟨db, { u with UpdatedAt := time }, [], []⟩
      rw [h1] at this
      exact this
    have hgetObj : ∀ h, getObject st1.db h = getObject db h :=
      getObject_congr_items st1.db db hitems
    have hH1 : st1.taker.Hash = u.Hash := by
      have := foldStop_invariant_fun (processTrade fails time) (fun s => s.taker.Hash)
        (fun st a => (processTrade_frame fails time st a).2.1) trades
        ⟨db, { u with UpdatedAt := time }, [], []⟩
      rw [h1] at this
      exact this
    have hTx1 : st1.taker.TxHash = u.TxHash := by
      have := foldStop_invariant_fun (processTrade fails time) (fun s => s.taker.TxHash)
        (fun st a => (processTrade_frame fails time st a).2.2.1) trades
        ⟨db, { u with UpdatedAt := time }, [], []⟩
      rw [h1] at this
      exact this
    have hLT1 : st1.taker.LendingToken = u.LendingToken := by
      have := foldStop_invariant_fun (processTrade fails time) (fun s => s.taker.LendingToken)
        (fun st a => (processTrade_frame fails time st a).2.2.2.2.2.2.2.1) trades
        ⟨db, { u with UpdatedAt := time }, [], []⟩
      rw [h1] at this
      exact this
    have hCT1 : st1.taker.CollateralToken = u.CollateralToken := by
      have := foldStop_invariant_fun (processTrade fails time) (fun s => s.taker.CollateralToken)
        (fun st a => (processTrade_frame fails time st a).2.2.2.2.2.2.2.2) trades
        ⟨db, { u with UpdatedAt := time }, [], []⟩
      rw [h1] at this
      exact this
    have hH2 : (finalizeMarketTaker st1.taker).Hash = u.Hash :=
      (finalizeMarketTaker_frame st1.taker).1.trans hH1
    have hTx2 : (finalizeMarketTaker st1.taker).TxHash = txh :=
      ((finalizeMarketTaker_frame st1.taker).2.1.trans hTx1).trans hustamp
    have hLT2 : (finalizeMarketTaker st1.taker).LendingToken = u.LendingToken :=
      (finalizeMarketTaker_frame st1.taker).2.2.2.2.1.trans hLT1
    have hCT2 : (finalizeMarketTaker st1.taker).CollateralToken = u.CollateralToken :=
      (finalizeMarketTaker_frame st1.taker).2.2.2.2.2.trans hCT1
    have hcget : cacheGet (updateLendingItemCache cache u.LendingToken u.CollateralToken
        u.Hash txh ls) txh = some [((u.LendingToken, u.CollateralToken, u.Hash), ls)] := by
      have := updateLendingItemCache_get cache u.LendingToken u.CollateralToken u.Hash txh ls
      rw [hfreshB] at this
      exact this
    have hpres1 : PresE txh (u.LendingToken, u.CollateralToken, u.Hash)
        (updateLendingItemCache cache u.LendingToken u.CollateralToken u.Hash txh ls) :=
      ⟨[((u.LendingToken, u.CollateralToken, u.Hash), ls)], hcget,
        by rw [bucketFind_singleton_self]; rfl⟩
    have hinvB1 : SyncInvB db txh st1.db [((u.LendingToken, u.CollateralToken, u.Hash), ls)] := by
      refine ⟨?_, ?_, ?_, ?_, ?_⟩
      · rw [hitems]
        exact hnd
      · intro p hp
        rw [List.mem_singleton] at hp
        subst hp
        exact hls
      · intro h hg
        rw [hgetObj] at hg
        exact hg
      · intro h o hg _
        rw [hgetObj] at hg
        exact hg
      · intro h o hg ho
        rw [hgetObj] at hg
        exact absurd ho (hfreshT o (getObject_mem db h o hg))
    by_cases hput : (finalizeMarketTaker st1.taker).Hash ∈ fails.putItems
    · rw [if_pos hput] at hok
      exact absurd hok (by simp)
    · rw [if_neg hput] at hok ⊢
      have hinv2 : SyncInv db txh (dbSetItem st1.db (finalizeMarketTaker st1.taker))
          (updateLendingItemCache cache u.LendingToken u.CollateralToken u.Hash txh ls) := by
        refine ⟨_, hcget, SyncInvB_write db txh st1.db _ _ hinvB1 hTx2 ?_⟩
        rw [hLT2, hCT2, hH2, bucketFind_singleton_self]
        rfl
      rcases h2 : syncPhaseMakers fails txh time st1.makerAmt st1.makerHashes
          ⟨dbSetItem st1.db (finalizeMarketTaker st1.taker), updateLendingItemCache cache
            u.LendingToken u.CollateralToken u.Hash txh ls⟩ with ⟨e2, mst⟩
      rw [h2] at hok
      cases e2 with
      | some e0 => exact absurd hok (by simp)
      | none =>
        dsimp only at hok ⊢
        have hmst : SyncInv db txh mst.db mst.cache
            ∧ PresE txh (u.LendingToken, u.CollateralToken, u.Hash) mst.cache := by
          have := syncPhaseMakers_inv db fails txh time st1.makerAmt st1.makerHashes
            (u.LendingToken, u.CollateralToken, u.Hash)
            ⟨dbSetItem st1.db (finalizeMarketTaker st1.taker), updateLendingItemCache cache
              u.LendingToken u.CollateralToken u.Hash txh ls⟩ hinv2 hpres1 (by rw [h2])
          rw [h2] at this
          exact this
        rcases h3 : syncPhaseRejects fails txh time st1.makerAmt (finalizeMarketTaker st1.taker)
            rejects mst with ⟨e3, fs⟩
        rw [h3] at hok
        cases e3 with
        | some e0 => exact absurd hok (by simp)
        | none =>
          dsimp only at hok ⊢
          have hfs : SyncInv db txh fs.db fs.cache := by
            have := syncPhaseRejects_inv db fails txh time st1.makerAmt u
              (finalizeMarketTaker st1.taker) rejects mst hmst.1 hmst.2
              ⟨hLT2, hCT2, hH2⟩ (by rw [h3])
            rw [h3] at this
            exact this
          by_cases hc : fails.commit = true
          · rw [if_pos hc] at hok
            exact absurd hok (by simp)
          · rw [if_neg hc]
            exact hfs

/-! ## Rollback restores the snapshots (claim C2) -/

theorem rollbackStep_frame (fails : StoreFails) (cache : HistoryCache) (tx : Nat)
    (acc : MongoDB × List String) (item : LendingItem) (h : Nat) (hne : h ≠ item.Hash) :
    getObject (rollbackStep fails cache tx acc item).1 h = getObject acc.1 h := by
  unfold rollbackStep
  rcases hc : cacheGet cache tx with _ | bucket
  · dsimp only
    by_cases hd : item.Hash ∈ fails.deleteItems
    · rw [if_pos hd]
    · rw [if_neg hd]
      show getObject (dbDeleteItem acc.1 item.Hash) h = getObject acc.1 h
      rw [getObject_dbDeleteItem, if_neg hne]
  · dsimp only
    by_cases hh : (bucketFind bucket (getLendingItemHistoryKey item.LendingToken
        item.CollateralToken item.Hash)).getD emptyHistoryItem = emptyHistoryItem
    · rw [if_pos hh]
      by_cases hd : item.Hash ∈ fails.deleteItems
      · rw [if_pos hd]
      · rw [if_neg hd]
        show getObject (dbDeleteItem acc.1 item.Hash) h = getObject acc.1 h
        rw [getObject_dbDeleteItem, if_neg hne]
    · rw [if_neg hh]
      by_cases hp : item.Hash ∈ fails.putItems
      · rw [if_pos hp]
      · rw [if_neg hp]
        show getObject (dbSetItem acc.1 _) h = getObject acc.1 h
        rw [getObject_dbSetItem, if_neg hne]

theorem rollback_fold_frame (fails : StoreFails) (cache : HistoryCache) (tx : Nat) :
    ∀ (items : List LendingItem) (acc : MongoDB × List String) (h : Nat),
      (∀ it, it ∈ items → it.Hash ≠ h) →
      getObject (items.foldl (rollbackStep fails cache tx) acc).1 h = getObject acc.1 h := by
  intro items
  induction items with
  | nil => intro acc h _; rfl
  | cons it rest ih =>
    intro acc h hne
    rw [List.foldl_cons]
    rw [ih (rollbackStep fails cache tx acc it) h
      (fun it' hit' => hne it' (List.mem_cons_of_mem it hit'))]
    exact rollbackStep_frame fails cache tx acc it h
      (fun he => hne it (List.mem_cons_self it rest) he.symm)

theorem rollbackStep_hit_delete (fails : StoreFails) (cache : HistoryCache) (tx : Nat)
    (acc : MongoDB × List String) (item : LendingItem) (B : HistBucket)
    (hB : cacheGet cache tx = some B) (hdel : fails.deleteItems = [])
    (hhist : (bucketFind B (item.LendingToken, item.CollateralToken, item.Hash)).getD
      emptyHistoryItem = emptyHistoryItem) :
    getObject (rollbackStep fails cache tx acc item).1 item.Hash = none := by
  unfold rollbackStep
  rw [hB]
  dsimp only
  unfold getLendingItemHistoryKey
  rw [if_pos hhist, hdel, if_neg (List.not_mem_nil _)]
  show getObject (dbDeleteItem acc.1 item.Hash) item.Hash = none
  rw [getObject_dbDeleteItem, if_pos rfl]

theorem rollbackStep_hit_restore (fails : StoreFails) (cache : HistoryCache) (tx : Nat)
    (acc : MongoDB × List String) (item : LendingItem) (B : HistBucket)
    (e : LendingItemHistoryItem) (hB : cacheGet cache tx = some B)
    (hput : fails.putItems = [])
    (hf : bucketFind B (item.LendingToken, item.CollateralToken, item.Hash) = some e)
    (hne : e ≠ emptyHistoryItem) :
    getObject (rollbackStep fails cache tx acc item).1 item.Hash
      = some { item with TxHash := e.TxHash,
                         Status := e.Status,
                         FilledAmount := e.FilledAmount.getD 0,
                         UpdatedAt := e.UpdatedAt } := by
  unfold rollbackStep
  rw [hB]
  dsimp only
  unfold getLendingItemHistoryKey
  rw [hf]
  simp only [Option.getD_some]
  rw [if_neg hne, hput, if_neg (List.not_mem_nil _)]
  show getObject (dbSetItem acc.1 _) item.Hash = _
  rw [getObject_dbSetItem, if_pos rfl]

/-- The core of the C2 result: after a call that left the synchronization
invariant in place, `RollbackLendingItems` maps every stamped record back to
the pre-call snapshot at its hash — deleting records absent before the call
and restoring `{TxHash, Status, FilledAmount, UpdatedAt}` for the others —
provided the rollback's own store operations do not fail. -/
theorem rollback_restores_point (fails : StoreFails) (db0 db1 : MongoDB)
    (cache1 : HistoryCache) (tx : Nat) (hinv : SyncInv db0 tx db1 cache1)
    (hdel : fails.deleteItems = []) (hput : fails.putItems = []) :
    ∀ h o1, getObject db1 h = some o1 → o1.TxHash = tx →
      getObject (rollbackLendingItems fails db1 cache1 tx).db h
        = (match getObject db0 h with
           | none => none
           | some o0 => some { o1 with TxHash := o0.TxHash,
                                       Status := o0.Status,
                                       FilledAmount := o0.FilledAmount,
                                       UpdatedAt := o0.UpdatedAt }) := by
  obtain ⟨B, hB, hnd, hC4, hC1, hC2, hC3⟩ := hinv
  intro h o1 hg1 hstamp
  have ho1h : o1.Hash = h := getObject_hash db1 h o1 hg1
  subst ho1h
  have ho1mem : o1 ∈ db1.items := getObject_mem db1 o1.Hash o1 hg1
  have hmemfil : o1 ∈ getLendingItemByTxHash db1 tx := by
    unfold getLendingItemByTxHash
    rw [List.mem_filter]
    exact ⟨ho1mem, by simp only [beq_iff_eq]; exact hstamp⟩
  have hkey := hC3 o1.Hash o1 hg1 hstamp
  rcases hfk : bucketFind B (o1.LendingToken, o1.CollateralToken, o1.Hash) with _ | e
  · rw [hfk] at hkey
    cases hkey
  have hval : e = histOfOpt (getObject db0 o1.Hash) := by
    have hm := bucketFind_mem B _ e hfk
    exact hC4 _ hm
  have hfilnd : ((getLendingItemByTxHash db1 tx).map (fun o => o.Hash)).Nodup := by
    refine List.Nodup.sublist (List.Sublist.map _ ?_) hnd
    exact List.filter_sublist db1.items
  have hpw : (getLendingItemByTxHash db1 tx).Pairwise (fun a b => a.Hash ≠ b.Hash) :=
    List.pairwise_map.mp hfilnd
  obtain ⟨pre, post, hsplit⟩ := List.append_of_mem hmemfil
  unfold rollbackLendingItems
  dsimp only
  have hdt : ∀ (d : MongoDB),
      getObject (deleteLendingTradeByTxHash d tx) o1.Hash = getObject d o1.Hash :=
    fun d => rfl
  rw [hdt]
  rw [hsplit, List.foldl_append, List.foldl_cons]
  rw [hsplit] at hpw
  have hpostne : ∀ it, it ∈ post → it.Hash ≠ o1.Hash := by
    intro it hit he
    have hcons := (List.pairwise_append.mp hpw).2.1
    have := (List.pairwise_cons.mp hcons).1 it hit
    exact this he.symm
  rw [rollback_fold_frame fails cache1 tx post _ o1.Hash hpostne]
  rcases hg0 : getObject db0 o1.Hash with _ | o0
  · rw [hg0] at hval
    exact rollbackStep_hit_delete fails cache1 tx
      (pre.foldl (rollbackStep fails cache1 tx) (db1, [])) o1 B hB hdel
      (by rw [hfk, Option.getD_some, hval]; rfl)
  · rw [hg0] at hval
    have hene : e ≠ emptyHistoryItem := by
      rw [hval]
      intro hx
      exact Option.noConfusion (congrArg LendingItemHistoryItem.FilledAmount hx)
    have hres := rollbackStep_hit_restore fails cache1 tx
      (pre.foldl (rollbackStep fails cache1 tx) (db1, [])) o1 B e hB hput hfk hene
    rw [hres, hval]
    rfl

theorem getObject_eq_none_iff (d : MongoDB) (h : Nat) :
    getObject d h = none ↔ ∀ o, o ∈ d.items → o.Hash ≠ h := by
  unfold getObject
  rw [List.find?_eq_none]
  constructor
  · intro hx o hm he
    have h2 := hx o hm
    simp only [beq_iff_eq] at h2
    exact h2 he
  · intro hx o hm
    simp only [beq_iff_eq]
    exact hx o hm

theorem getObject_of_mem_nodup (d : MongoDB) (o : LendingItem)
    (hnd : (d.items.map (fun j => j.Hash)).Nodup) (hm : o ∈ d.items) :
    getObject d o.Hash = some o := by
  rcases hg : getObject d o.Hash with _ | o'
  · exact absurd rfl ((getObject_eq_none_iff d o.Hash).mp hg o hm)
  · have hm' := getObject_mem d o.Hash o' hg
    have hh' := getObject_hash d o.Hash o' hg
    have : o' = o := List.inj_on_of_nodup_map hnd hm' hm hh'
    rw [this]

theorem mem_getLendingItemByTxHash (db : MongoDB) (txh : Nat) (it : LendingItem) :
    it ∈ getLendingItemByTxHash db txh ↔ it ∈ db.items ∧ it.TxHash = txh := by
  unfold getLendingItemByTxHash
  rw [List.mem_filter]
  simp only [beq_iff_eq]

/-- Item records whose hash is stamped by no record of the rollback's filter
list are untouched by `RollbackLendingItems`. -/
theorem rollback_frame_all (rfails : StoreFails) (db1 : MongoDB) (cache1 : HistoryCache)
    (txh h : Nat)
    (hnone : ∀ it, it ∈ getLendingItemByTxHash db1 txh → it.Hash ≠ h) :
    getObject (rollbackLendingItems rfails db1 cache1 txh).db h = getObject db1 h := by
  unfold rollbackLendingItems
  dsimp only
  have hdt : ∀ (d : MongoDB),
      getObject (deleteLendingTradeByTxHash d txh) h = getObject d h := fun d => rfl
  rw [hdt]
  exact rollback_fold_frame rfails cache1 txh _ _ h hnone

/-- `RollbackLendingItems` leaves no trade stamped with the rolled-back
transaction hash. -/
theorem rollback_trades_gone (rfails : StoreFails) (db1 : MongoDB) (cache1 : HistoryCache)
    (txh : Nat) :
    ∀ tr, tr ∈ (rollbackLendingItems rfails db1 cache1 txh).db.trades → tr.TxHash ≠ txh := by
  intro tr hm
  unfold rollbackLendingItems deleteLendingTradeByTxHash at hm
  dsimp only at hm
  exact of_decide_eq_true (List.mem_filter.mp hm).2

/-- From the synchronization invariant and a failure-free rollback: a hash
holds a record after the rollback exactly when it held one before the call,
and the surviving record agrees with the pre-call record on the four
snapshot fields. -/
theorem rollback_restores_all (rfails : StoreFails) (db0 db1 : MongoDB)
    (cache1 : HistoryCache) (txh : Nat) (hinv : SyncInv db0 txh db1 cache1)
    (hdel : rfails.deleteItems = []) (hput : rfails.putItems = []) :
    (∀ h, getObject (rollbackLendingItems rfails db1 cache1 txh).db h = none
      ↔ getObject db0 h = none) ∧
    (∀ h o2 o0, getObject (rollbackLendingItems rfails db1 cache1 txh).db h = some o2 →
      getObject db0 h = some o0 →
      o2.TxHash = o0.TxHash ∧ o2.Status = o0.Status ∧
        o2.FilledAmount = o0.FilledAmount ∧ o2.UpdatedAt = o0.UpdatedAt) := by
  have hpt := rollback_restores_point rfails db0 db1 cache1 txh hinv hdel hput
  obtain ⟨B, hB, hnd1, hC4e, hC1n, hC2u, hC3p⟩ := hinv
  have hframe_none : ∀ h, getObject db1 h = none →
      getObject (rollbackLendingItems rfails db1 cache1 txh).db h = none := by
    intro h hg1
    have hfr : getObject (rollbackLendingItems rfails db1 cache1 txh).db h
        = getObject db1 h := by
      apply rollback_frame_all
      intro it hit
      obtain ⟨hmem, _⟩ := (mem_getLendingItemByTxHash db1 txh it).mp hit
      exact (getObject_eq_none_iff db1 h).mp hg1 it hmem
    rw [hfr, hg1]
  have hframe_un : ∀ h o1, getObject db1 h = some o1 → o1.TxHash ≠ txh →
      getObject (rollbackLendingItems rfails db1 cache1 txh).db h = some o1 := by
    intro h o1 hg1 hstamp
    have hfr : getObject (rollbackLendingItems rfails db1 cache1 txh).db h
        = getObject db1 h := by
      apply rollback_frame_all
      intro it hit he
      obtain ⟨hmem, htx⟩ := (mem_getLendingItemByTxHash db1 txh it).mp hit
      have hgit := getObject_of_mem_nodup db1 it hnd1 hmem
      rw [he, hg1] at hgit
      have h1i := Option.some.inj hgit
      rw [← h1i] at htx
      exact hstamp htx
    rw [hfr, hg1]
  constructor
  · intro h
    rcases hg1 : getObject db1 h with _ | o1
    · rw [hframe_none h hg1, hC1n h hg1]
    · by_cases hstamp : o1.TxHash = txh
      · have hm := hpt h o1 hg1 hstamp
        rcases hg0 : getObject db0 h with _ | o0
        · rw [hg0] at hm
          exact iff_of_true hm rfl
        · rw [hg0] at hm
          constructor
          · intro hx
            rw [hm] at hx
            exact Option.noConfusion hx
          · intro hx
            exact Option.noConfusion hx
      · rw [hframe_un h o1 hg1 hstamp, hC2u h o1 hg1 hstamp]
  · intro h o2 o0 hg2 hg0
    rcases hg1 : getObject db1 h with _ | o1
    · rw [hC1n h hg1] at hg0
      exact Option.noConfusion hg0
    · by_cases hstamp : o1.TxHash = txh
      · have hm := hpt h o1 hg1 hstamp
        rw [hg0] at hm
        rw [hm] at hg2
        have he2 := Option.some.inj hg2
        rw [← he2]
        exact ⟨rfl, rfl, rfl, rfl⟩
      · have h0 := hC2u h o1 hg1 hstamp
        rw [hframe_un h o1 hg1 hstamp] at hg2
        have he2 := Option.some.inj hg2
        rw [hg0] at h0
        have h01 := Option.some.inj h0
        rw [← he2, ← h01]
        exact ⟨rfl, rfl, rfl, rfl⟩

/-- **C2.** After a successful `SyncDataToSDKNode` call for a transaction
hash that is fresh for the store (no record yet stamped with it, no history
bucket for it, record hashes pairwise distinct), a subsequent
`RollbackLendingItems` for the same hash whose own store operations succeed
restores the store: a hash holds an item record after the rollback exactly
when it held one before the synchronization, every surviving record agrees
with its pre-synchronization version on `{TxHash, Status, FilledAmount,
UpdatedAt}` (so records created fresh by the call are deleted), and no trade
record with that transaction hash remains. -/
theorem claim_C2_rollback_restores (sfails rfails : StoreFails)
    (db0 : MongoDB) (cache0 : HistoryCache) (taker : LendingItem) (txh : Nat)
    (t : Int) (trades : List LendingTrade) (rejects : List LendingItem) (cnt : Nat)
    (r : SyncResult) (rb : RollbackResult)
    (hnd : (db0.items.map (fun o => o.Hash)).Nodup)
    (hfreshB : cacheGet cache0 txh = none)
    (hfreshT : ∀ o, o ∈ db0.items → o.TxHash ≠ txh)
    (hdel : rfails.deleteItems = []) (hput : rfails.putItems = [])
    (hr : r = syncDataToSDKNode sfails db0 cache0 taker txh t trades rejects cnt)
    (hok : r.err = none)
    (hrb : rb = rollbackLendingItems rfails r.db r.cache txh) :
    (∀ h, getObject rb.db h = none ↔ getObject db0 h = none) ∧
    (∀ h o2 o0, getObject rb.db h = some o2 → getObject db0 h = some o0 →
      o2.TxHash = o0.TxHash ∧ o2.Status = o0.Status ∧
        o2.FilledAmount = o0.FilledAmount ∧ o2.UpdatedAt = o0.UpdatedAt) ∧
    (∀ tr, tr ∈ rb.db.trades → tr.TxHash ≠ txh) := by
  subst hr
  by_cases hskip : syncGateSkips db0 taker t cnt
  · unfold syncDataToSDKNode at hrb
    rw [if_pos hskip] at hrb
    dsimp only at hrb
    subst hrb
    have hfr : ∀ h, getObject (rollbackLendingItems rfails db0 cache0 txh).db h
        = getObject db0 h := by
      intro h
      apply rollback_frame_all
      intro it hit _
      obtain ⟨hmem, htx⟩ := (mem_getLendingItemByTxHash db0 txh it).mp hit
      exact absurd htx (hfreshT it hmem)
    refine ⟨?_, ?_, rollback_trades_gone rfails db0 cache0 txh⟩
    · intro h
      rw [hfr h]
    · intro h o2 o0 hg2 hg0
      rw [hfr h, hg0] at hg2
      have h02 := Option.some.inj hg2
      rw [← h02]
      exact ⟨rfl, rfl, rfl, rfl⟩
  · unfold syncDataToSDKNode at hok hrb
    rw [if_neg hskip] at hok hrb
    have hinv := syncAfterGate_ok_inv sfails db0 cache0
      (syncUpdatedTaker db0 taker txh t) (histOfOpt (getObject db0 taker.Hash)) txh t
      trades rejects (cnt + 1) hfreshB hfreshT hnd
      (by rw [syncUpdatedTaker_hash db0 taker txh t])
      (syncUpdatedTaker_txHash db0 taker txh t) hok
    have hall := rollback_restores_all rfails db0 _ _ txh hinv hdel hput
    subst hrb
    exact ⟨hall.1, hall.2, rollback_trades_gone rfails _ _ txh⟩

/-- Concrete C2 scenario: one maker record already in the store, a fresh
taker and one trade that fills the maker, synchronized under transaction
hash 5 at match time 100 with no store failures. -/
def c2Maker : LendingItem := ⟨2, 77, .LendingStatusOpen, .Limit, 20, 4, 50, 50, 11, 12⟩

def c2Db0 : MongoDB := ⟨[c2Maker], []⟩

def c2Cache0 : HistoryCache := ⟨[]⟩

def c2Taker : LendingItem := ⟨1, 0, .LendingStatusNew, .Limit, 10, 0, 0, 0, 11, 12⟩

def c2Trade : LendingTrade := ⟨7, 5, 3, 2, 0, 0⟩

def c2Sync : SyncResult := syncDataToSDKNode noFails c2Db0 c2Cache0 c2Taker 5 100 [c2Trade] [] 0

def c2Rb : RollbackResult := rollbackLendingItems noFails c2Sync.db c2Sync.cache 5

/-- Witness for C2: on the concrete scenario every hypothesis holds by
evaluation (the synchronization succeeds, hash 5 is fresh for the store and
the cache, the rollback's store operations succeed), and the claim instance
follows by direct application. -/
theorem claim_C2_rollback_restores_witness :
    ((c2Db0.items.map (fun o => o.Hash)).Nodup ∧
      cacheGet c2Cache0 5 = none ∧
      (∀ o, o ∈ c2Db0.items → o.TxHash ≠ 5) ∧
      c2Sync.err = none) ∧
    ((∀ h, getObject c2Rb.db h = none ↔ getObject c2Db0 h = none) ∧
     (∀ h o2 o0, getObject c2Rb.db h = some o2 → getObject c2Db0 h = some o0 →
       o2.TxHash = o0.TxHash ∧ o2.Status = o0.Status ∧
         o2.FilledAmount = o0.FilledAmount ∧ o2.UpdatedAt = o0.UpdatedAt) ∧
     (∀ tr, tr ∈ c2Rb.db.trades → tr.TxHash ≠ 5)) :=
  ⟨⟨by decide, by decide, by decide, by decide⟩,
   claim_C2_rollback_restores noFails noFails c2Db0 c2Cache0 c2Taker 5 100 [c2Trade] [] 0
     c2Sync c2Rb (by decide) (by decide) (by decide) rfl rfl rfl (by decide) rfl⟩

end TomoxLending
